import Mathlib

/-!
Shallow embedding of the arguably command-line argument parsing library
(src/lib.rs), together with theorems checking the library's specification
against the code.

Modelling conventions:
* Rust strings (tokens, aliases, messages) are lists of characters.
* The three HashMaps are association lists where the most recent insertion
  sits at the head and shadows earlier bindings of the same key, which is
  observably the stdlib HashMap insert/get behaviour.
* std::process::exit after printing help or version text is an explicit
  outcome constructor carrying the printed text.
* The two places where parsing could panic on token access
  (chars().nth(1).unwrap() and splitn(2, the equals sign) indexing) are an
  explicit panicked outcome constructor.
* The callback function pointer is modelled by whether a callback is
  registered; invocations are recorded as (name, sub-parser) events.
-/

namespace Arguably

/-- A command-line token (a Rust String), modelled as its character list. -/
abbrev Tok := List Char

/-- Converts a Lean string literal to a token. -/
def str (s : String) : Tok := s.toList

/-- Error type, from enum Error in src/lib.rs. -/
inductive Error where
  | InvalidName : Tok → Error
  | MissingValue : Tok → Error
  | MissingHelpArg : Error
  | InvalidUnicode : Error
deriving DecidableEq, Repr

/-- One registered option (struct Opt): accumulated values and the default. -/
structure Opt where
  values : List Tok
  default : Tok
deriving DecidableEq, Repr

/-- One registered flag (struct Flag): its occurrence count. -/
structure Flag where
  count : Nat
deriving DecidableEq, Repr

/-- HashMap get, on an association list whose head is the newest binding. -/
def mapGet (m : List (Tok × Nat)) (k : Tok) : Option Nat :=
  (m.find? (fun e => e.1 == k)).map (fun e => e.2)

/-- HashMap insert: the new binding shadows any earlier binding of the key. -/
def mapInsert (m : List (Tok × Nat)) (k : Tok) (v : Nat) : List (Tok × Nat) :=
  (k, v) :: m

/-- Replaces the element at an index, leaving the list unchanged when the
index is out of range.  Registration only stores indices of entries that
exist, so the out-of-range case is unreachable through the library API. -/
def modifyAt (f : α → α) : Nat → List α → List α
  | _, [] => []
  | 0, x :: xs => f x :: xs
  | n+1, x :: xs => x :: modifyAt f n xs

/-- Helper for splitWs, accumulating the current word in reverse. -/
def splitWsAux : Tok → Tok → List Tok
  | acc, [] => if acc.isEmpty then [] else [acc.reverse]
  | acc, c :: cs =>
    if c.isWhitespace then
      (if acc.isEmpty then [] else [acc.reverse]) ++ splitWsAux [] cs
    else splitWsAux (c :: acc) cs

/-- Rust str::split_whitespace, used by the registration methods; the
whitespace test is Lean's Char.isWhitespace, which covers the ASCII
whitespace characters that alias specifications use in practice. -/
def splitWs (l : Tok) : List Tok := splitWsAux [] l

/-- Rust str::trim. -/
def trimTok (l : Tok) : Tok :=
  ((l.dropWhile Char.isWhitespace).reverse.dropWhile Char.isWhitespace).reverse

/-- struct ArgParser from src/lib.rs.  A nested inductive, because each
registered sub-command is itself an ArgParser. -/
inductive ArgParser where
  | mk
    (helptext : Option Tok) (version : Option Tok)
    (options : List Opt) (optionMap : List (Tok × Nat))
    (flags : List Flag) (flagMap : List (Tok × Nat))
    (commands : List ArgParser) (commandMap : List (Tok × Nat))
    (hasCallback : Bool) (args : List Tok)
    (cmdName : Option Tok) (cmdParser : Option ArgParser) (cmdHelp : Bool)

def ArgParser.helptext : ArgParser → Option Tok
  | .mk x _ _ _ _ _ _ _ _ _ _ _ _ => x

def ArgParser.version : ArgParser → Option Tok
  | .mk _ x _ _ _ _ _ _ _ _ _ _ _ => x

def ArgParser.options : ArgParser → List Opt
  | .mk _ _ x _ _ _ _ _ _ _ _ _ _ => x

def ArgParser.optionMap : ArgParser → List (Tok × Nat)
  | .mk _ _ _ x _ _ _ _ _ _ _ _ _ => x

def ArgParser.flags : ArgParser → List Flag
  | .mk _ _ _ _ x _ _ _ _ _ _ _ _ => x

def ArgParser.flagMap : ArgParser → List (Tok × Nat)
  | .mk _ _ _ _ _ x _ _ _ _ _ _ _ => x

def ArgParser.commands : ArgParser → List ArgParser
  | .mk _ _ _ _ _ _ x _ _ _ _ _ _ => x

def ArgParser.commandMap : ArgParser → List (Tok × Nat)
  | .mk _ _ _ _ _ _ _ x _ _ _ _ _ => x

def ArgParser.hasCallback : ArgParser → Bool
  | .mk _ _ _ _ _ _ _ _ x _ _ _ _ => x

def ArgParser.args : ArgParser → List Tok
  | .mk _ _ _ _ _ _ _ _ _ x _ _ _ => x

def ArgParser.cmdName : ArgParser → Option Tok
  | .mk _ _ _ _ _ _ _ _ _ _ x _ _ => x

def ArgParser.cmdParser : ArgParser → Option ArgParser
  | .mk _ _ _ _ _ _ _ _ _ _ _ x _ => x

def ArgParser.cmdHelp : ArgParser → Bool
  | .mk _ _ _ _ _ _ _ _ _ _ _ _ x => x

/-- ArgParser::new. -/
def ArgParser.new : ArgParser :=
  .mk none none [] [] [] [] [] [] false [] none none false

/-- ArgParser::helptext (builder method). -/
def ArgParser.withHelptext : ArgParser → Tok → ArgParser
  | .mk _ v os om fs fm cs cm cb a cn cp ch, t =>
    .mk (some t) v os om fs fm cs cm cb a cn cp ch

/-- ArgParser::version (builder method). -/
def ArgParser.withVersion : ArgParser → Tok → ArgParser
  | .mk h _ os om fs fm cs cm cb a cn cp ch, t =>
    .mk h (some t) os om fs fm cs cm cb a cn cp ch

/-- ArgParser::option: appends a fresh Opt entry and binds every
whitespace-separated alias in name to its index. -/
def ArgParser.option : ArgParser → Tok → Tok → ArgParser
  | .mk h v os om fs fm cs cm cb a cn cp ch, name, dflt =>
    let om' := (splitWs name).foldl (fun m al => mapInsert m al os.length) om
    .mk h v (os ++ [⟨[], dflt⟩]) om' fs fm cs cm cb a cn cp ch

/-- ArgParser::flag: appends a fresh Flag entry and binds every
whitespace-separated alias in name to its index. -/
def ArgParser.flag : ArgParser → Tok → ArgParser
  | .mk h v os om fs fm cs cm cb a cn cp ch, name =>
    let fm' := (splitWs name).foldl (fun m al => mapInsert m al fs.length) fm
    .mk h v os om (fs ++ [⟨0⟩]) fm' cs cm cb a cn cp ch

/-- ArgParser::command: appends the sub-command parser, binds its aliases,
and enables the built-in help command when the sub-command has helptext. -/
def ArgParser.command : ArgParser → Tok → ArgParser → ArgParser
  | .mk h v os om fs fm cs cm cb a cn cp ch, name, cmdP =>
    let cm' := (splitWs name).foldl (fun m al => mapInsert m al cs.length) cm
    .mk h v os om fs fm (cs ++ [cmdP]) cm' cb a cn cp
      (if cmdP.helptext.isSome then true else ch)

/-- ArgParser::enable_help_command. -/
def ArgParser.enableHelpCommand : ArgParser → Bool → ArgParser
  | .mk h v os om fs fm cs cm cb a cn cp _, b =>
    .mk h v os om fs fm cs cm cb a cn cp b

/-- ArgParser::callback: registering a callback function. -/
def ArgParser.withCallback : ArgParser → ArgParser
  | .mk h v os om fs fm cs cm _ a cn cp ch =>
    .mk h v os om fs fm cs cm true a cn cp ch

def defOpt : Opt := ⟨[], []⟩

def defFlag : Flag := ⟨0⟩

/-- ArgParser::value.  The none result models the panic on an unregistered
option name. -/
def ArgParser.value (p : ArgParser) (name : Tok) : Option Tok :=
  match mapGet p.optionMap name with
  | some i =>
    let o := p.options.getD i defOpt
    match o.values.getLast? with
    | some v => some v
    | none => some o.default
  | none => none

/-- ArgParser::values.  The none result models the panic on an unregistered
option name. -/
def ArgParser.values (p : ArgParser) (name : Tok) : Option (List Tok) :=
  match mapGet p.optionMap name with
  | some i => some (p.options.getD i defOpt).values
  | none => none

/-- ArgParser::count.  The none result models the panic on a name that is
neither a registered flag nor a registered option. -/
def ArgParser.count (p : ArgParser) (name : Tok) : Option Nat :=
  match mapGet p.flagMap name with
  | some i => some (p.flags.getD i defFlag).count
  | none =>
    match mapGet p.optionMap name with
    | some i => some (p.options.getD i defOpt).values.length
    | none => none

/-- ArgParser::found. -/
def ArgParser.found (p : ArgParser) (name : Tok) : Option Bool :=
  (p.count name).map (fun n => 0 < n)

/-- Pushes one positional argument. -/
def ArgParser.pushArg : ArgParser → Tok → ArgParser
  | .mk h v os om fs fm cs cm cb a cn cp ch, t =>
    .mk h v os om fs fm cs cm cb (a ++ [t]) cn cp ch

/-- Pushes a list of positional arguments. -/
def ArgParser.pushArgs : ArgParser → List Tok → ArgParser
  | .mk h v os om fs fm cs cm cb a cn cp ch, ts =>
    .mk h v os om fs fm cs cm cb (a ++ ts) cn cp ch

/-- Increments the count of the flag entry at an index. -/
def ArgParser.incFlagAt : ArgParser → Nat → ArgParser
  | .mk h v os om fs fm cs cm cb a cn cp ch, i =>
    .mk h v os om (modifyAt (fun f => ⟨f.count + 1⟩) i fs) fm cs cm cb a cn cp ch

/-- Appends a value to the option entry at an index. -/
def ArgParser.pushOptValueAt : ArgParser → Nat → Tok → ArgParser
  | .mk h v os om fs fm cs cm cb a cn cp ch, i, w =>
    .mk h v (modifyAt (fun o => ⟨o.values ++ [w], o.default⟩) i os) om fs fm cs cm cb a cn cp ch

/-- Clears the command list and command map, as the sub-command dispatch
branch of parse_argstream does before recursing. -/
def ArgParser.clearCmds : ArgParser → ArgParser
  | .mk h v os om fs fm _ _ cb a cn cp ch =>
    .mk h v os om fs fm [] [] cb a cn cp ch

/-- Records the matched sub-command name and its parsed parser. -/
def ArgParser.setCmd : ArgParser → Tok → ArgParser → ArgParser
  | .mk h v os om fs fm cs cm cb a _ _ ch, name, q =>
    .mk h v os om fs fm cs cm cb a (some name) (some q) ch

/-- The code point ranges of the Unicode general categories Nd, Nl and
No (Unicode 14.0.0), as inclusive (first, last) pairs in increasing
order. -/
def numericTable : List (Nat × Nat) := [
  (0x30, 0x39), (0xB2, 0xB3), (0xB9, 0xB9), (0xBC, 0xBE),
  (0x660, 0x669), (0x6F0, 0x6F9), (0x7C0, 0x7C9), (0x966, 0x96F),
  (0x9E6, 0x9EF), (0x9F4, 0x9F9), (0xA66, 0xA6F), (0xAE6, 0xAEF),
  (0xB66, 0xB6F), (0xB72, 0xB77), (0xBE6, 0xBF2), (0xC66, 0xC6F),
  (0xC78, 0xC7E), (0xCE6, 0xCEF), (0xD58, 0xD5E), (0xD66, 0xD78),
  (0xDE6, 0xDEF), (0xE50, 0xE59), (0xED0, 0xED9), (0xF20, 0xF33),
  (0x1040, 0x1049), (0x1090, 0x1099), (0x1369, 0x137C), (0x16EE, 0x16F0),
  (0x17E0, 0x17E9), (0x17F0, 0x17F9), (0x1810, 0x1819), (0x1946, 0x194F),
  (0x19D0, 0x19DA), (0x1A80, 0x1A89), (0x1A90, 0x1A99), (0x1B50, 0x1B59),
  (0x1BB0, 0x1BB9), (0x1C40, 0x1C49), (0x1C50, 0x1C59), (0x2070, 0x2070),
  (0x2074, 0x2079), (0x2080, 0x2089), (0x2150, 0x2182), (0x2185, 0x2189),
  (0x2460, 0x249B), (0x24EA, 0x24FF), (0x2776, 0x2793), (0x2CFD, 0x2CFD),
  (0x3007, 0x3007), (0x3021, 0x3029), (0x3038, 0x303A), (0x3192, 0x3195),
  (0x3220, 0x3229), (0x3248, 0x324F), (0x3251, 0x325F), (0x3280, 0x3289),
  (0x32B1, 0x32BF), (0xA620, 0xA629), (0xA6E6, 0xA6EF), (0xA830, 0xA835),
  (0xA8D0, 0xA8D9), (0xA900, 0xA909), (0xA9D0, 0xA9D9), (0xA9F0, 0xA9F9),
  (0xAA50, 0xAA59), (0xABF0, 0xABF9), (0xFF10, 0xFF19), (0x10107, 0x10133),
  (0x10140, 0x10178), (0x1018A, 0x1018B), (0x102E1, 0x102FB), (0x10320, 0x10323),
  (0x10341, 0x10341), (0x1034A, 0x1034A), (0x103D1, 0x103D5), (0x104A0, 0x104A9),
  (0x10858, 0x1085F), (0x10879, 0x1087F), (0x108A7, 0x108AF), (0x108FB, 0x108FF),
  (0x10916, 0x1091B), (0x109BC, 0x109BD), (0x109C0, 0x109CF), (0x109D2, 0x109FF),
  (0x10A40, 0x10A48), (0x10A7D, 0x10A7E), (0x10A9D, 0x10A9F), (0x10AEB, 0x10AEF),
  (0x10B58, 0x10B5F), (0x10B78, 0x10B7F), (0x10BA9, 0x10BAF), (0x10CFA, 0x10CFF),
  (0x10D30, 0x10D39), (0x10E60, 0x10E7E), (0x10F1D, 0x10F26), (0x10F51, 0x10F54),
  (0x10FC5, 0x10FCB), (0x11052, 0x1106F), (0x110F0, 0x110F9), (0x11136, 0x1113F),
  (0x111D0, 0x111D9), (0x111E1, 0x111F4), (0x112F0, 0x112F9), (0x11450, 0x11459),
  (0x114D0, 0x114D9), (0x11650, 0x11659), (0x116C0, 0x116C9), (0x11730, 0x1173B),
  (0x118E0, 0x118F2), (0x11950, 0x11959), (0x11C50, 0x11C6C), (0x11D50, 0x11D59),
  (0x11DA0, 0x11DA9), (0x11FC0, 0x11FD4), (0x12400, 0x1246E), (0x16A60, 0x16A69),
  (0x16AC0, 0x16AC9), (0x16B50, 0x16B59), (0x16B5B, 0x16B61), (0x16E80, 0x16E96),
  (0x1D2E0, 0x1D2F3), (0x1D360, 0x1D378), (0x1D7CE, 0x1D7FF), (0x1E140, 0x1E149),
  (0x1E2F0, 0x1E2F9), (0x1E8C7, 0x1E8CF), (0x1E950, 0x1E959), (0x1EC71, 0x1ECAB),
  (0x1ECAD, 0x1ECAF), (0x1ECB1, 0x1ECB4), (0x1ED01, 0x1ED2D), (0x1ED2F, 0x1ED3D),
  (0x1F100, 0x1F10C), (0x1FBF0, 0x1FBF9)]

/-- Models Rust char::is_numeric at src/lib.rs line 343: true exactly on
the Unicode number categories Nd, Nl and No.  The table above is the
complete category data of Unicode 14.0.0; Rust's own table follows the
Unicode version bundled with the toolchain, so the two can differ only
at code points assigned to a number category after that version. -/
def rustIsNumeric (c : Char) : Bool :=
  numericTable.any (fun r => decide (r.1 ≤ c.toNat ∧ c.toNat ≤ r.2))

/-- Result of ArgParser::handle_equals_opt.  The panicked constructor
models the out-of-bounds access splits[1] that would occur if the argument
contained no equals sign. -/
inductive EqResult where
  | ok : ArgParser → EqResult
  | err : Error → ArgParser → EqResult
  | panicked : EqResult

/-- Result of handle_long_opt and handle_short_opt: the mutated parser and
the remaining token stream, an error with the parser mutated so far, or a
print-and-exit carrying the printed text. -/
inductive HandlerResult where
  | ok : ArgParser → List Tok → HandlerResult
  | err : Error → ArgParser → HandlerResult
  | exited : Tok → HandlerResult

/-- ArgParser::handle_equals_opt: splits the token at the first equals
sign, strips leading dashes from the name part, and looks it up among the
registered options. -/
def handleEqualsOpt (p : ArgParser) (arg : Tok) : EqResult :=
  if arg.contains '=' then
    let name := arg.takeWhile (fun c => c != '=')
    let val := (arg.dropWhile (fun c => c != '=')).drop 1
    match mapGet p.optionMap (name.dropWhile (fun c => c == '-')) with
    | some i =>
      if val = [] then
        .err (.MissingValue (str "missing value for " ++ name)) p
      else
        .ok (p.pushOptValueAt i val)
    | none => .err (.InvalidName (name ++ str " is not a recognised option name")) p
  else .panicked

/-- ArgParser::handle_long_opt: the key is the token text after the two
leading dashes; flags are checked before options, then the automatic
help and version flags, and anything else is an invalid name. -/
def handleLongOpt (p : ArgParser) (arg : Tok) (stream : List Tok) : HandlerResult :=
  match mapGet p.flagMap (arg.drop 2) with
  | some i => .ok (p.incFlagAt i) stream
  | none =>
    match mapGet p.optionMap (arg.drop 2) with
    | some i =>
      match stream with
      | v :: rest => .ok (p.pushOptValueAt i v) rest
      | [] => .err (.MissingValue (str "missing value for " ++ arg)) p
    | none =>
      if arg = str "--help" ∧ p.helptext.isSome then
        .exited (trimTok (p.helptext.getD []))
      else if arg = str "--version" ∧ p.version.isSome then
        .exited (trimTok (p.version.getD []))
      else
        .err (.InvalidName (arg ++ str " is not a recognised flag or option name")) p

/-- ArgParser::handle_short_opt, iterating over the cluster characters cs
(the characters of arg after the leading dash).  Each character is looked
up as a flag, then as an option that consumes the next stream token, then
as the automatic h and v shortcuts. -/
def handleShortOpt (p : ArgParser) (arg : Tok) (cs : Tok) (stream : List Tok) : HandlerResult :=
  match cs with
  | [] => .ok p stream
  | c :: cs' =>
    match mapGet p.flagMap [c] with
    | some i => handleShortOpt (p.incFlagAt i) arg cs' stream
    | none =>
      match mapGet p.optionMap [c] with
      | some i =>
        match stream with
        | v :: rest => handleShortOpt (p.pushOptValueAt i v) arg cs' rest
        | [] =>
          .err (.MissingValue (if 2 < arg.length then
            str "missing value for '" ++ [c] ++ str "' in " ++ arg
          else
            str "missing value for " ++ arg)) p
      | none =>
        if c = 'h' ∧ p.helptext.isSome then
          .exited (trimTok (p.helptext.getD []))
        else if c = 'v' ∧ p.version.isSome then
          .exited (trimTok (p.version.getD []))
        else
          .err (.InvalidName (if 2 < arg.length then
            str "'" ++ [c] ++ str "' in " ++ arg ++ str " is not a recognised flag or option name"
          else
            arg ++ str " is not a recognised flag or option name")) p

/-- A callback invocation: the matched sub-command alias and the
sub-command parser handed to the callback (its state after parsing). -/
abbrev CallbackEvent := Tok × ArgParser

/-- Result of parse_argstream: success with the final parser and the list
of callback invocations in order, an error with the parser mutated so far,
a print-and-exit, or a panic on token access. -/
inductive Outcome where
  | ok : ArgParser → List CallbackEvent → Outcome
  | err : Error → ArgParser → Outcome
  | exited : Tok → Outcome
  | panicked : Outcome

/-- ArgParser::parse_argstream.  The fuel argument makes the recursion
structural; every loop iteration consumes at least one token, so fuel
equal to the token count is always enough and the fuel-exhaustion case is
unreachable from parseVec (it is mapped to panicked, which also never
occurs, see the no-panic theorem). -/
def parseGo : Nat → ArgParser → Bool → List Tok → Outcome
  | _, p, _, [] => .ok p []
  | 0, _, _, _ :: _ => .panicked
  | fuel+1, p, isFirst, arg :: rest =>
    if arg = str "--" then
      .ok (p.pushArgs rest) []
    else if arg.take 2 = str "--" then
      if arg.contains '=' then
        match handleEqualsOpt p arg with
        | .ok p' => parseGo fuel p' false rest
        | .err e q => .err e q
        | .panicked => .panicked
      else
        match handleLongOpt p arg rest with
        | .ok p' rest' => parseGo fuel p' false rest'
        | .err e q => .err e q
        | .exited t => .exited t
    else if arg.take 1 = str "-" then
      match arg with
      | ['-'] => parseGo fuel (p.pushArg arg) false rest
      | '-' :: c :: _ =>
        if rustIsNumeric c then
          parseGo fuel (p.pushArg arg) false rest
        else if arg.contains '=' then
          match handleEqualsOpt p arg with
          | .ok p' => parseGo fuel p' false rest
          | .err e q => .err e q
          | .panicked => .panicked
        else
          match handleShortOpt p arg (arg.drop 1) rest with
          | .ok p' rest' => parseGo fuel p' false rest'
          | .err e q => .err e q
          | .exited t => .exited t
      | _ => .panicked
    else if isFirst = true ∧ (mapGet p.commandMap arg).isSome then
      let i := (mapGet p.commandMap arg).getD 0
      let cmdP := p.commands.getD i ArgParser.new
      match parseGo fuel cmdP true rest with
      | .ok cmdP' evs =>
        .ok ((p.clearCmds).setCmd arg cmdP')
          (evs ++ (if cmdP.hasCallback then [(arg, cmdP')] else []))
      | .err e _ => .err e p.clearCmds
      | .exited t => .exited t
      | .panicked => .panicked
    else if isFirst = true ∧ p.cmdHelp = true ∧ arg = str "help" then
      match rest with
      | [] => .err .MissingHelpArg p
      | name :: _ =>
        match mapGet p.commandMap name with
        | some j => .exited (trimTok ((p.commands.getD j ArgParser.new).helptext.getD []))
        | none =>
          .err (.InvalidName (str "'" ++ name ++ str "' is not a recognised command name")) p
    else
      parseGo fuel (p.pushArg arg) false rest

/-- ArgParser::parse_vec: parses a vector of tokens from the start. -/
def parseVec (p : ArgParser) (ts : List Tok) : Outcome :=
  parseGo ts.length p true ts

/-!
Spec-side mirror.  The specification describes, per parser level, which
tokens are classified as flags, options, positionals, sub-commands and the
help command, which classifications append option values or increment flag
counts, and which fail.  The definitions below follow the spec's
classification rules (spec sections 4.3 and 8); they read only the static
registration data of a level (the alias maps, the help-command switch, the
presence of help and version text, and the sub-command list), which the
engine never changes while processing that level.  The theorems relate
them to the code-side parse functions above.
-/

/-- A state-changing classification event at one parser level: a flag
count increment, or an option value append, naming the entry index. -/
inductive LevelEvent where
  | flagInc : Nat → LevelEvent
  | optPush : Nat → Tok → LevelEvent
deriving DecidableEq, Repr

/-- How a parse run terminates: success, a MissingValue error, any other
error, or a print-and-exit. -/
inductive SpecTerm where
  | ok | errMissing | errOther | exited
deriving DecidableEq, Repr

/-- The terminal status of a code-side outcome.  The panicked outcome is
unreachable (see the no-panic theorem) and is mapped to errOther. -/
def termOf : Outcome → SpecTerm
  | .ok _ _ => .ok
  | .err (.MissingValue _) _ => .errMissing
  | .err _ _ => .errOther
  | .exited _ => .exited
  | .panicked => .errOther

/-- The static registration data of one parser level: flag, option and
command alias maps, the help-command switch, whether help and version text
are present, and the sub-command parsers. -/
structure LevelCfg where
  fm : List (Tok × Nat)
  om : List (Tok × Nat)
  cm : List (Tok × Nat)
  ch : Bool
  hasH : Bool
  hasV : Bool
  cmds : List ArgParser

/-- The static registration data of a parser. -/
def ArgParser.cfg (p : ArgParser) : LevelCfg :=
  ⟨p.flagMap, p.optionMap, p.commandMap, p.cmdHelp, p.helptext.isSome, p.version.isSome, p.commands⟩

/-- Modelled from the spec (section 4.3, short-form rule): walks the
characters of a short cluster in order; each flag character contributes a
count increment, each option character consumes the next stream token as a
value (a missing stream token is a MissingValue error), the automatic h
and v shortcuts print and exit, and anything else is a bad-name error.
Returns the events before any terminal, the terminal if one occurred, and
the remaining stream. -/
def specCluster (cfg : LevelCfg) (cs : Tok) (stream : List Tok) :
    List LevelEvent × Option SpecTerm × List Tok :=
  match cs with
  | [] => ([], none, stream)
  | c :: cs' =>
    match mapGet cfg.fm [c] with
    | some i =>
      let r := specCluster cfg cs' stream
      (.flagInc i :: r.1, r.2.1, r.2.2)
    | none =>
      match mapGet cfg.om [c] with
      | some i =>
        match stream with
        | v :: rest =>
          let r := specCluster cfg cs' rest
          (.optPush i v :: r.1, r.2.1, r.2.2)
        | [] => ([], some .errMissing, [])
      | none =>
        if c = 'h' ∧ cfg.hasH then ([], some .exited, stream)
        else if c = 'v' ∧ cfg.hasV then ([], some .exited, stream)
        else ([], some .errOther, stream)

theorem specCluster_stream_le (cfg : LevelCfg) (cs : Tok) (stream : List Tok) :
    (specCluster cfg cs stream).2.2.length ≤ stream.length := by
  induction cs generalizing stream with
  | nil => simp [specCluster]
  | cons c cs' ih =>
    cases h1 : mapGet cfg.fm [c] with
    | some i =>
      simp only [specCluster, h1]
      simpa using ih stream
    | none =>
      cases h2 : mapGet cfg.om [c] with
      | some i =>
        cases stream with
        | nil => simp [specCluster, h1, h2]
        | cons v rest =>
          simp only [specCluster, h1, h2]
          simpa using Nat.le_trans (ih rest) (Nat.le_succ _)
      | none =>
        simp only [specCluster, h1, h2]
        split
        · simp
        · split <;> simp

/-- Modelled from the spec (sections 4.3 and 8): classifies the tokens of
one parser level in order and enumerates the state-changing events of that
level, together with the terminal status of the whole run (including the
run of a dispatched sub-command, whose own events belong to its level and
are not listed).  Dead branches after a terminal classification are never
reached on the corresponding code path.  The fuel argument mirrors the one
of parseGo; every step consumes at least one token, so fuel equal to the
token count (as used by specWalk below) is always enough. -/
def specWalkGo : Nat → LevelCfg → Bool → List Tok → List LevelEvent × SpecTerm
  | _, _, _, [] => ([], .ok)
  | 0, _, _, _ :: _ => ([], .errOther)
  | fuel+1, cfg, first, arg :: rest =>
    if arg = str "--" then ([], .ok)
    else if arg.take 2 = str "--" then
      if arg.contains '=' then
        let name := arg.takeWhile (fun c => c != '=')
        let val := (arg.dropWhile (fun c => c != '=')).drop 1
        match mapGet cfg.om (name.dropWhile (fun c => c == '-')) with
        | some i =>
          if val = [] then ([], .errMissing)
          else
            let r := specWalkGo fuel cfg false rest
            (.optPush i val :: r.1, r.2)
        | none => ([], .errOther)
      else
        match mapGet cfg.fm (arg.drop 2) with
        | some i =>
          let r := specWalkGo fuel cfg false rest
          (.flagInc i :: r.1, r.2)
        | none =>
          match mapGet cfg.om (arg.drop 2) with
          | some i =>
            match rest with
            | v :: rest2 =>
              let r := specWalkGo fuel cfg false rest2
              (.optPush i v :: r.1, r.2)
            | [] => ([], .errMissing)
          | none =>
            if arg = str "--help" ∧ cfg.hasH then ([], .exited)
            else if arg = str "--version" ∧ cfg.hasV then ([], .exited)
            else ([], .errOther)
    else if arg.take 1 = str "-" then
      match arg with
      | ['-'] => specWalkGo fuel cfg false rest
      | '-' :: c :: _ =>
        if rustIsNumeric c then specWalkGo fuel cfg false rest
        else if arg.contains '=' then
          let name := arg.takeWhile (fun c => c != '=')
          let val := (arg.dropWhile (fun c => c != '=')).drop 1
          match mapGet cfg.om (name.dropWhile (fun c => c == '-')) with
          | some i =>
            if val = [] then ([], .errMissing)
            else
              let r := specWalkGo fuel cfg false rest
              (.optPush i val :: r.1, r.2)
          | none => ([], .errOther)
        else
          let r := specCluster cfg (arg.drop 1) rest
          match r.2.1 with
          | some t => (r.1, t)
          | none =>
            let r2 := specWalkGo fuel cfg false r.2.2
            (r.1 ++ r2.1, r2.2)
      | _ => ([], .errOther)
    else if first = true ∧ (mapGet cfg.cm arg).isSome then
      let i := (mapGet cfg.cm arg).getD 0
      ([], (specWalkGo fuel (cfg.cmds.getD i ArgParser.new).cfg true rest).2)
    else if first = true ∧ cfg.ch = true ∧ arg = str "help" then
      match rest with
      | [] => ([], .errOther)
      | name :: _ =>
        match mapGet cfg.cm name with
        | some _ => ([], .exited)
        | none => ([], .errOther)
    else specWalkGo fuel cfg false rest

/-- The spec-side classification of a full token sequence from the start:
specWalkGo with enough fuel. -/
def specWalk (cfg : LevelCfg) (first : Bool) (ts : List Tok) : List LevelEvent × SpecTerm :=
  specWalkGo ts.length cfg first ts

/-- The number of count increments the events of a level contribute to the
flag entry at an index. -/
def flagHits (evs : List LevelEvent) (i : Nat) : Nat :=
  evs.countP (fun e => match e with | .flagInc j => j == i | _ => false)

/-- The values the events of a level append to the option entry at an
index, in order. -/
def optHits (evs : List LevelEvent) (i : Nat) : List Tok :=
  evs.filterMap (fun e => match e with
    | .optPush j v => if j == i then some v else none
    | _ => none)

/-- Every index stored in the flag and option alias maps is a valid index
into the corresponding entry list; guaranteed by registration. -/
def mapsValid (p : ArgParser) : Bool :=
  p.flagMap.all (fun kv => kv.2 < p.flags.length)
    && p.optionMap.all (fun kv => kv.2 < p.options.length)

/-!
Small preservation and arithmetic lemmas used by the correlation proofs.
-/

@[simp] theorem pushArg_helptext (p : ArgParser) (t : Tok) : (p.pushArg t).helptext = p.helptext := by cases p; rfl
@[simp] theorem pushArg_version (p : ArgParser) (t : Tok) : (p.pushArg t).version = p.version := by cases p; rfl
@[simp] theorem pushArg_options (p : ArgParser) (t : Tok) : (p.pushArg t).options = p.options := by cases p; rfl
@[simp] theorem pushArg_optionMap (p : ArgParser) (t : Tok) : (p.pushArg t).optionMap = p.optionMap := by cases p; rfl
@[simp] theorem pushArg_flags (p : ArgParser) (t : Tok) : (p.pushArg t).flags = p.flags := by cases p; rfl
@[simp] theorem pushArg_flagMap (p : ArgParser) (t : Tok) : (p.pushArg t).flagMap = p.flagMap := by cases p; rfl
@[simp] theorem pushArg_commands (p : ArgParser) (t : Tok) : (p.pushArg t).commands = p.commands := by cases p; rfl
@[simp] theorem pushArg_commandMap (p : ArgParser) (t : Tok) : (p.pushArg t).commandMap = p.commandMap := by cases p; rfl
@[simp] theorem pushArg_hasCallback (p : ArgParser) (t : Tok) : (p.pushArg t).hasCallback = p.hasCallback := by cases p; rfl
@[simp] theorem pushArg_args (p : ArgParser) (t : Tok) : (p.pushArg t).args = p.args ++ [t] := by cases p; rfl
@[simp] theorem pushArg_cmdName (p : ArgParser) (t : Tok) : (p.pushArg t).cmdName = p.cmdName := by cases p; rfl
@[simp] theorem pushArg_cmdParser (p : ArgParser) (t : Tok) : (p.pushArg t).cmdParser = p.cmdParser := by cases p; rfl
@[simp] theorem pushArg_cmdHelp (p : ArgParser) (t : Tok) : (p.pushArg t).cmdHelp = p.cmdHelp := by cases p; rfl

@[simp] theorem pushArgs_helptext (p : ArgParser) (ts : List Tok) : (p.pushArgs ts).helptext = p.helptext := by cases p; rfl
@[simp] theorem pushArgs_version (p : ArgParser) (ts : List Tok) : (p.pushArgs ts).version = p.version := by cases p; rfl
@[simp] theorem pushArgs_options (p : ArgParser) (ts : List Tok) : (p.pushArgs ts).options = p.options := by cases p; rfl
@[simp] theorem pushArgs_optionMap (p : ArgParser) (ts : List Tok) : (p.pushArgs ts).optionMap = p.optionMap := by cases p; rfl
@[simp] theorem pushArgs_flags (p : ArgParser) (ts : List Tok) : (p.pushArgs ts).flags = p.flags := by cases p; rfl
@[simp] theorem pushArgs_flagMap (p : ArgParser) (ts : List Tok) : (p.pushArgs ts).flagMap = p.flagMap := by cases p; rfl
@[simp] theorem pushArgs_commands (p : ArgParser) (ts : List Tok) : (p.pushArgs ts).commands = p.commands := by cases p; rfl
@[simp] theorem pushArgs_commandMap (p : ArgParser) (ts : List Tok) : (p.pushArgs ts).commandMap = p.commandMap := by cases p; rfl
@[simp] theorem pushArgs_hasCallback (p : ArgParser) (ts : List Tok) : (p.pushArgs ts).hasCallback = p.hasCallback := by cases p; rfl
@[simp] theorem pushArgs_args (p : ArgParser) (ts : List Tok) : (p.pushArgs ts).args = p.args ++ ts := by cases p; rfl
@[simp] theorem pushArgs_cmdName (p : ArgParser) (ts : List Tok) : (p.pushArgs ts).cmdName = p.cmdName := by cases p; rfl
@[simp] theorem pushArgs_cmdParser (p : ArgParser) (ts : List Tok) : (p.pushArgs ts).cmdParser = p.cmdParser := by cases p; rfl
@[simp] theorem pushArgs_cmdHelp (p : ArgParser) (ts : List Tok) : (p.pushArgs ts).cmdHelp = p.cmdHelp := by cases p; rfl

@[simp] theorem incFlagAt_helptext (p : ArgParser) (i : Nat) : (p.incFlagAt i).helptext = p.helptext := by cases p; rfl
@[simp] theorem incFlagAt_version (p : ArgParser) (i : Nat) : (p.incFlagAt i).version = p.version := by cases p; rfl
@[simp] theorem incFlagAt_options (p : ArgParser) (i : Nat) : (p.incFlagAt i).options = p.options := by cases p; rfl
@[simp] theorem incFlagAt_optionMap (p : ArgParser) (i : Nat) : (p.incFlagAt i).optionMap = p.optionMap := by cases p; rfl
@[simp] theorem incFlagAt_flags (p : ArgParser) (i : Nat) : (p.incFlagAt i).flags = modifyAt (fun f => ⟨f.count + 1⟩) i p.flags := by cases p; rfl
@[simp] theorem incFlagAt_flagMap (p : ArgParser) (i : Nat) : (p.incFlagAt i).flagMap = p.flagMap := by cases p; rfl
@[simp] theorem incFlagAt_commands (p : ArgParser) (i : Nat) : (p.incFlagAt i).commands = p.commands := by cases p; rfl
@[simp] theorem incFlagAt_commandMap (p : ArgParser) (i : Nat) : (p.incFlagAt i).commandMap = p.commandMap := by cases p; rfl
@[simp] theorem incFlagAt_hasCallback (p : ArgParser) (i : Nat) : (p.incFlagAt i).hasCallback = p.hasCallback := by cases p; rfl
@[simp] theorem incFlagAt_args (p : ArgParser) (i : Nat) : (p.incFlagAt i).args = p.args := by cases p; rfl
@[simp] theorem incFlagAt_cmdName (p : ArgParser) (i : Nat) : (p.incFlagAt i).cmdName = p.cmdName := by cases p; rfl
@[simp] theorem incFlagAt_cmdParser (p : ArgParser) (i : Nat) : (p.incFlagAt i).cmdParser = p.cmdParser := by cases p; rfl
@[simp] theorem incFlagAt_cmdHelp (p : ArgParser) (i : Nat) : (p.incFlagAt i).cmdHelp = p.cmdHelp := by cases p; rfl

@[simp] theorem pushOptValueAt_helptext (p : ArgParser) (i : Nat) (v : Tok) : (p.pushOptValueAt i v).helptext = p.helptext := by cases p; rfl
@[simp] theorem pushOptValueAt_version (p : ArgParser) (i : Nat) (v : Tok) : (p.pushOptValueAt i v).version = p.version := by cases p; rfl
@[simp] theorem pushOptValueAt_options (p : ArgParser) (i : Nat) (v : Tok) : (p.pushOptValueAt i v).options = modifyAt (fun o => ⟨o.values ++ [v], o.default⟩) i p.options := by cases p; rfl
@[simp] theorem pushOptValueAt_optionMap (p : ArgParser) (i : Nat) (v : Tok) : (p.pushOptValueAt i v).optionMap = p.optionMap := by cases p; rfl
@[simp] theorem pushOptValueAt_flags (p : ArgParser) (i : Nat) (v : Tok) : (p.pushOptValueAt i v).flags = p.flags := by cases p; rfl
@[simp] theorem pushOptValueAt_flagMap (p : ArgParser) (i : Nat) (v : Tok) : (p.pushOptValueAt i v).flagMap = p.flagMap := by cases p; rfl
@[simp] theorem pushOptValueAt_commands (p : ArgParser) (i : Nat) (v : Tok) : (p.pushOptValueAt i v).commands = p.commands := by cases p; rfl
@[simp] theorem pushOptValueAt_commandMap (p : ArgParser) (i : Nat) (v : Tok) : (p.pushOptValueAt i v).commandMap = p.commandMap := by cases p; rfl
@[simp] theorem pushOptValueAt_hasCallback (p : ArgParser) (i : Nat) (v : Tok) : (p.pushOptValueAt i v).hasCallback = p.hasCallback := by cases p; rfl
@[simp] theorem pushOptValueAt_args (p : ArgParser) (i : Nat) (v : Tok) : (p.pushOptValueAt i v).args = p.args := by cases p; rfl
@[simp] theorem pushOptValueAt_cmdName (p : ArgParser) (i : Nat) (v : Tok) : (p.pushOptValueAt i v).cmdName = p.cmdName := by cases p; rfl
@[simp] theorem pushOptValueAt_cmdParser (p : ArgParser) (i : Nat) (v : Tok) : (p.pushOptValueAt i v).cmdParser = p.cmdParser := by cases p; rfl
@[simp] theorem pushOptValueAt_cmdHelp (p : ArgParser) (i : Nat) (v : Tok) : (p.pushOptValueAt i v).cmdHelp = p.cmdHelp := by cases p; rfl

@[simp] theorem clearCmds_helptext (p : ArgParser) : (p.clearCmds).helptext = p.helptext := by cases p; rfl
@[simp] theorem clearCmds_version (p : ArgParser) : (p.clearCmds).version = p.version := by cases p; rfl
@[simp] theorem clearCmds_options (p : ArgParser) : (p.clearCmds).options = p.options := by cases p; rfl
@[simp] theorem clearCmds_optionMap (p : ArgParser) : (p.clearCmds).optionMap = p.optionMap := by cases p; rfl
@[simp] theorem clearCmds_flags (p : ArgParser) : (p.clearCmds).flags = p.flags := by cases p; rfl
@[simp] theorem clearCmds_flagMap (p : ArgParser) : (p.clearCmds).flagMap = p.flagMap := by cases p; rfl
@[simp] theorem clearCmds_commands (p : ArgParser) : (p.clearCmds).commands = ([] : List ArgParser) := by cases p; rfl
@[simp] theorem clearCmds_commandMap (p : ArgParser) : (p.clearCmds).commandMap = ([] : List (Tok × Nat)) := by cases p; rfl
@[simp] theorem clearCmds_hasCallback (p : ArgParser) : (p.clearCmds).hasCallback = p.hasCallback := by cases p; rfl
@[simp] theorem clearCmds_args (p : ArgParser) : (p.clearCmds).args = p.args := by cases p; rfl
@[simp] theorem clearCmds_cmdName (p : ArgParser) : (p.clearCmds).cmdName = p.cmdName := by cases p; rfl
@[simp] theorem clearCmds_cmdParser (p : ArgParser) : (p.clearCmds).cmdParser = p.cmdParser := by cases p; rfl
@[simp] theorem clearCmds_cmdHelp (p : ArgParser) : (p.clearCmds).cmdHelp = p.cmdHelp := by cases p; rfl

@[simp] theorem setCmd_helptext (p : ArgParser) (n : Tok) (q : ArgParser) : (p.setCmd n q).helptext = p.helptext := by cases p; rfl
@[simp] theorem setCmd_version (p : ArgParser) (n : Tok) (q : ArgParser) : (p.setCmd n q).version = p.version := by cases p; rfl
@[simp] theorem setCmd_options (p : ArgParser) (n : Tok) (q : ArgParser) : (p.setCmd n q).options = p.options := by cases p; rfl
@[simp] theorem setCmd_optionMap (p : ArgParser) (n : Tok) (q : ArgParser) : (p.setCmd n q).optionMap = p.optionMap := by cases p; rfl
@[simp] theorem setCmd_flags (p : ArgParser) (n : Tok) (q : ArgParser) : (p.setCmd n q).flags = p.flags := by cases p; rfl
@[simp] theorem setCmd_flagMap (p : ArgParser) (n : Tok) (q : ArgParser) : (p.setCmd n q).flagMap = p.flagMap := by cases p; rfl
@[simp] theorem setCmd_commands (p : ArgParser) (n : Tok) (q : ArgParser) : (p.setCmd n q).commands = p.commands := by cases p; rfl
@[simp] theorem setCmd_commandMap (p : ArgParser) (n : Tok) (q : ArgParser) : (p.setCmd n q).commandMap = p.commandMap := by cases p; rfl
@[simp] theorem setCmd_hasCallback (p : ArgParser) (n : Tok) (q : ArgParser) : (p.setCmd n q).hasCallback = p.hasCallback := by cases p; rfl
@[simp] theorem setCmd_args (p : ArgParser) (n : Tok) (q : ArgParser) : (p.setCmd n q).args = p.args := by cases p; rfl
@[simp] theorem setCmd_cmdName (p : ArgParser) (n : Tok) (q : ArgParser) : (p.setCmd n q).cmdName = some n := by cases p; rfl
@[simp] theorem setCmd_cmdParser (p : ArgParser) (n : Tok) (q : ArgParser) : (p.setCmd n q).cmdParser = some q := by cases p; rfl
@[simp] theorem setCmd_cmdHelp (p : ArgParser) (n : Tok) (q : ArgParser) : (p.setCmd n q).cmdHelp = p.cmdHelp := by cases p; rfl

@[simp] theorem cfg_fm (p : ArgParser) : p.cfg.fm = p.flagMap := rfl

@[simp] theorem cfg_om (p : ArgParser) : p.cfg.om = p.optionMap := rfl

@[simp] theorem cfg_cm (p : ArgParser) : p.cfg.cm = p.commandMap := rfl

@[simp] theorem cfg_ch (p : ArgParser) : p.cfg.ch = p.cmdHelp := rfl

@[simp] theorem cfg_hasH (p : ArgParser) : p.cfg.hasH = p.helptext.isSome := rfl

@[simp] theorem cfg_hasV (p : ArgParser) : p.cfg.hasV = p.version.isSome := rfl

@[simp] theorem cfg_cmds (p : ArgParser) : p.cfg.cmds = p.commands := rfl

theorem cfg_ext {p q : ArgParser} (h1 : p.flagMap = q.flagMap) (h2 : p.optionMap = q.optionMap)
    (h3 : p.commandMap = q.commandMap) (h4 : p.cmdHelp = q.cmdHelp)
    (h5 : p.helptext = q.helptext) (h6 : p.version = q.version)
    (h7 : p.commands = q.commands) : p.cfg = q.cfg := by
  simp [ArgParser.cfg, h1, h2, h3, h4, h5, h6, h7]

@[simp] theorem pushArg_cfg (p : ArgParser) (t : Tok) : (p.pushArg t).cfg = p.cfg := by
  apply cfg_ext <;> simp

@[simp] theorem pushArgs_cfg (p : ArgParser) (ts : List Tok) : (p.pushArgs ts).cfg = p.cfg := by
  apply cfg_ext <;> simp

@[simp] theorem incFlagAt_cfg (p : ArgParser) (i : Nat) : (p.incFlagAt i).cfg = p.cfg := by
  apply cfg_ext <;> simp

@[simp] theorem pushOptValueAt_cfg (p : ArgParser) (i : Nat) (v : Tok) :
    (p.pushOptValueAt i v).cfg = p.cfg := by
  apply cfg_ext <;> simp

@[simp] theorem setCmd_cfg (p : ArgParser) (n : Tok) (q : ArgParser) :
    (p.setCmd n q).cfg = p.cfg := by
  apply cfg_ext <;> simp

@[simp] theorem length_modifyAt (f : α → α) (i : Nat) (l : List α) :
    (modifyAt f i l).length = l.length := by
  induction l generalizing i with
  | nil => simp [modifyAt]
  | cons x xs ih =>
    cases i with
    | zero => simp [modifyAt]
    | succ n => simp [modifyAt, ih]

theorem getD_modifyAt (f : α → α) (i j : Nat) (l : List α) (d : α) (hj : j < l.length) :
    (modifyAt f i l).getD j d = if i = j then f (l.getD j d) else l.getD j d := by
  induction l generalizing i j with
  | nil => simp at hj
  | cons x xs ih =>
    cases i with
    | zero =>
      cases j with
      | zero => simp [modifyAt]
      | succ m => simp [modifyAt]
    | succ n =>
      cases j with
      | zero => simp [modifyAt]
      | succ m =>
        have hm : m < xs.length := by simpa using hj
        simp only [modifyAt, List.getD_cons_succ]
        rw [ih n m hm]
        simp [Nat.succ_inj]

theorem mapGet_lt_of_all {m : List (Tok × Nat)} {n : Nat} {k : Tok} {i : Nat}
    (hall : m.all (fun kv => kv.2 < n) = true) (h : mapGet m k = some i) : i < n := by
  unfold mapGet at h
  cases hf : m.find? (fun e => e.1 == k) with
  | none => simp [hf] at h
  | some e =>
    have hm := List.mem_of_find?_eq_some hf
    rw [hf] at h
    simp at h
    subst h
    simpa using List.all_eq_true.mp hall _ hm

@[simp] theorem flagHits_nil (i : Nat) : flagHits [] i = 0 := rfl

@[simp] theorem flagHits_cons_inc (j : Nat) (evs : List LevelEvent) (i : Nat) :
    flagHits (.flagInc j :: evs) i = flagHits evs i + (if j = i then 1 else 0) := by
  simp only [flagHits, List.countP_cons]
  split <;> simp_all

@[simp] theorem flagHits_cons_push (j : Nat) (v : Tok) (evs : List LevelEvent) (i : Nat) :
    flagHits (.optPush j v :: evs) i = flagHits evs i := by
  simp [flagHits, List.countP_cons]

@[simp] theorem flagHits_append (a b : List LevelEvent) (i : Nat) :
    flagHits (a ++ b) i = flagHits a i + flagHits b i := by
  simp [flagHits, List.countP_append]

@[simp] theorem optHits_nil (i : Nat) : optHits [] i = [] := rfl

@[simp] theorem optHits_cons_inc (j : Nat) (evs : List LevelEvent) (i : Nat) :
    optHits (.flagInc j :: evs) i = optHits evs i := by
  simp [optHits, List.filterMap_cons]

@[simp] theorem optHits_cons_push (j : Nat) (v : Tok) (evs : List LevelEvent) (i : Nat) :
    optHits (.optPush j v :: evs) i = (if j = i then [v] else []) ++ optHits evs i := by
  simp only [optHits, List.filterMap_cons]
  split <;> split <;> simp_all

@[simp] theorem optHits_append (a b : List LevelEvent) (i : Nat) :
    optHits (a ++ b) i = optHits a i ++ optHits b i := by
  simp [optHits, List.filterMap_append]

/-- The state change of one parser level: entry-list lengths are stable,
each flag count grows by the number of its increment events, and each
option value list is extended by its appended values in order, with the
default unchanged. -/
def stateDelta (p p' : ArgParser) (evs : List LevelEvent) : Prop :=
  p'.flags.length = p.flags.length ∧ p'.options.length = p.options.length ∧
  (∀ i, i < p.flags.length →
    (p'.flags.getD i defFlag).count = (p.flags.getD i defFlag).count + flagHits evs i) ∧
  (∀ i, i < p.options.length →
    (p'.options.getD i defOpt).values = (p.options.getD i defOpt).values ++ optHits evs i ∧
    (p'.options.getD i defOpt).default = (p.options.getD i defOpt).default)

theorem stateDelta_nil (p : ArgParser) : stateDelta p p [] := by
  refine ⟨rfl, rfl, ?_, ?_⟩ <;> intro i hi <;> simp

theorem stateDelta_trans {p q r : ArgParser} {e1 e2 : List LevelEvent}
    (h1 : stateDelta p q e1) (h2 : stateDelta q r e2) : stateDelta p r (e1 ++ e2) := by
  obtain ⟨l1f, l1o, c1, v1⟩ := h1
  obtain ⟨l2f, l2o, c2, v2⟩ := h2
  refine ⟨l2f.trans l1f, l2o.trans l1o, ?_, ?_⟩
  · intro i hi
    rw [c2 i (l1f ▸ hi), c1 i hi]
    simp [Nat.add_assoc]
  · intro i hi
    obtain ⟨hv1, hd1⟩ := v1 i hi
    obtain ⟨hv2, hd2⟩ := v2 i (l1o ▸ hi)
    refine ⟨?_, hd2.trans hd1⟩
    rw [hv2, hv1]
    simp

theorem stateDelta_pushArg (p : ArgParser) (t : Tok) : stateDelta p (p.pushArg t) [] := by
  refine ⟨by simp, by simp, ?_, ?_⟩ <;> intro i hi <;> simp

theorem stateDelta_pushArgs (p : ArgParser) (ts : List Tok) : stateDelta p (p.pushArgs ts) [] := by
  refine ⟨by simp, by simp, ?_, ?_⟩ <;> intro i hi <;> simp

theorem stateDelta_clearCmds (p : ArgParser) : stateDelta p p.clearCmds [] := by
  refine ⟨by simp, by simp, ?_, ?_⟩ <;> intro i hi <;> simp

theorem stateDelta_setCmd (p : ArgParser) (n : Tok) (q : ArgParser) :
    stateDelta p (p.setCmd n q) [] := by
  refine ⟨by simp, by simp, ?_, ?_⟩ <;> intro i hi <;> simp

theorem stateDelta_incFlagAt (p : ArgParser) (i : Nat) (hi : i < p.flags.length) :
    stateDelta p (p.incFlagAt i) [.flagInc i] := by
  refine ⟨by simp, by simp, ?_, ?_⟩
  · intro j hj
    simp only [incFlagAt_flags]
    rw [getD_modifyAt _ _ _ _ _ hj]
    split <;> simp_all
  · intro j hj
    simp

theorem stateDelta_pushOptValueAt (p : ArgParser) (i : Nat) (v : Tok)
    (hi : i < p.options.length) :
    stateDelta p (p.pushOptValueAt i v) [.optPush i v] := by
  refine ⟨by simp, by simp, ?_, ?_⟩
  · intro j hj
    simp
  · intro j hj
    simp only [pushOptValueAt_options]
    rw [getD_modifyAt _ _ _ _ _ hj]
    split <;> simp_all

@[simp] theorem mapsValid_pushArg (p : ArgParser) (t : Tok) :
    mapsValid (p.pushArg t) = mapsValid p := by
  simp [mapsValid]

@[simp] theorem mapsValid_pushArgs (p : ArgParser) (ts : List Tok) :
    mapsValid (p.pushArgs ts) = mapsValid p := by
  simp [mapsValid]

@[simp] theorem mapsValid_incFlagAt (p : ArgParser) (i : Nat) :
    mapsValid (p.incFlagAt i) = mapsValid p := by
  simp [mapsValid]

@[simp] theorem mapsValid_pushOptValueAt (p : ArgParser) (i : Nat) (v : Tok) :
    mapsValid (p.pushOptValueAt i v) = mapsValid p := by
  simp [mapsValid]

@[simp] theorem mapsValid_clearCmds (p : ArgParser) :
    mapsValid p.clearCmds = mapsValid p := by
  simp [mapsValid]

@[simp] theorem mapsValid_setCmd (p : ArgParser) (n : Tok) (q : ArgParser) :
    mapsValid (p.setCmd n q) = mapsValid p := by
  simp [mapsValid]

/-- The terminal status a returned error corresponds to. -/
def errTerm : Error → SpecTerm
  | .MissingValue _ => .errMissing
  | _ => .errOther

theorem mapsValid_fm {p : ArgParser} (hv : mapsValid p = true) :
    p.flagMap.all (fun kv => kv.2 < p.flags.length) = true := by
  unfold mapsValid at hv
  simp only [Bool.and_eq_true] at hv
  exact hv.1

theorem mapsValid_om {p : ArgParser} (hv : mapsValid p = true) :
    p.optionMap.all (fun kv => kv.2 < p.options.length) = true := by
  unfold mapsValid at hv
  simp only [Bool.and_eq_true] at hv
  exact hv.2

/-- Correlation between handle_short_opt and the spec-side cluster walk:
on success the parser keeps its static registration data and positional
arguments, the walk reports no terminal and the same remaining stream, and
the state change is the walk's event list; on an error or exit the walk
reports the matching terminal. -/
theorem handleShortOpt_spec (arg : Tok) (cs : Tok) :
    ∀ (p : ArgParser) (stream : List Tok),
    (∀ p' s', handleShortOpt p arg cs stream = .ok p' s' →
      p'.cfg = p.cfg ∧ p'.args = p.args ∧ mapsValid p' = mapsValid p ∧
      (specCluster p.cfg cs stream).2.1 = none ∧ (specCluster p.cfg cs stream).2.2 = s' ∧
      (mapsValid p = true → stateDelta p p' (specCluster p.cfg cs stream).1))
    ∧ (∀ e q, handleShortOpt p arg cs stream = .err e q →
      (specCluster p.cfg cs stream).2.1 = some (errTerm e))
    ∧ (∀ t, handleShortOpt p arg cs stream = .exited t →
      (specCluster p.cfg cs stream).2.1 = some .exited) := by
  induction cs with
  | nil =>
    intro p stream
    refine ⟨?_, ?_, ?_⟩
    · intro p' s' h
      simp only [handleShortOpt] at h
      obtain ⟨rfl, rfl⟩ : p = p' ∧ stream = s' := by
        cases h; exact ⟨rfl, rfl⟩
      exact ⟨rfl, rfl, rfl, by simp [specCluster], by simp [specCluster],
        fun _ => by simpa [specCluster] using stateDelta_nil p⟩
    · intro e q h
      simp [handleShortOpt] at h
    · intro t h
      simp [handleShortOpt] at h
  | cons c cs' ih =>
    intro p stream
    cases h1 : mapGet p.flagMap [c] with
    | some i =>
      have hrec := ih (p.incFlagAt i) stream
      refine ⟨?_, ?_, ?_⟩
      · intro p' s' h
        simp only [handleShortOpt, h1] at h
        obtain ⟨hcfg, hargs, hmv, hterm, hstream, hdelta⟩ := hrec.1 p' s' h
        rw [incFlagAt_cfg] at hcfg hterm hstream hdelta
        refine ⟨hcfg, by simpa using hargs, by simpa using hmv, ?_, ?_, ?_⟩
        · simp only [specCluster, cfg_fm, h1]
          exact hterm
        · simp only [specCluster, cfg_fm, h1]
          exact hstream
        · intro hv
          have hi : i < p.flags.length := mapGet_lt_of_all (mapsValid_fm hv) h1
          have hd1 := stateDelta_incFlagAt p i hi
          have hd2 := hdelta (by simpa using hv)
          have := stateDelta_trans hd1 hd2
          simpa [specCluster, cfg_fm, h1] using this
      · intro e q h
        simp only [handleShortOpt, h1] at h
        have := hrec.2.1 e q h
        rw [incFlagAt_cfg] at this
        simpa [specCluster, cfg_fm, h1] using this
      · intro t h
        simp only [handleShortOpt, h1] at h
        have := hrec.2.2 t h
        rw [incFlagAt_cfg] at this
        simpa [specCluster, cfg_fm, h1] using this
    | none =>
      cases h2 : mapGet p.optionMap [c] with
      | some i =>
        cases stream with
        | nil =>
          refine ⟨?_, ?_, ?_⟩
          · intro p' s' h
            simp only [handleShortOpt, h1, h2] at h
            split at h <;> cases h
          · intro e q h
            simp only [handleShortOpt, h1, h2] at h
            have hterm : errTerm e = .errMissing := by
              split at h <;> (cases h; rfl)
            simp only [specCluster, cfg_fm, cfg_om, h1, h2, hterm]
          · intro t h
            simp only [handleShortOpt, h1, h2] at h
            split at h <;> cases h
        | cons v rest =>
          have hrec := ih (p.pushOptValueAt i v) rest
          refine ⟨?_, ?_, ?_⟩
          · intro p' s' h
            simp only [handleShortOpt, h1, h2] at h
            obtain ⟨hcfg, hargs, hmv, hterm, hstream, hdelta⟩ := hrec.1 p' s' h
            rw [pushOptValueAt_cfg] at hcfg hterm hstream hdelta
            refine ⟨hcfg, by simpa using hargs, by simpa using hmv, ?_, ?_, ?_⟩
            · simp only [specCluster, cfg_fm, cfg_om, h1, h2]
              exact hterm
            · simp only [specCluster, cfg_fm, cfg_om, h1, h2]
              exact hstream
            · intro hv
              have hi : i < p.options.length := mapGet_lt_of_all (mapsValid_om hv) h2
              have hd1 := stateDelta_pushOptValueAt p i v hi
              have hd2 := hdelta (by simpa using hv)
              have := stateDelta_trans hd1 hd2
              simpa [specCluster, cfg_fm, cfg_om, h1, h2] using this
          · intro e q h
            simp only [handleShortOpt, h1, h2] at h
            have := hrec.2.1 e q h
            rw [pushOptValueAt_cfg] at this
            simpa [specCluster, cfg_fm, cfg_om, h1, h2] using this
          · intro t h
            simp only [handleShortOpt, h1, h2] at h
            have := hrec.2.2 t h
            rw [pushOptValueAt_cfg] at this
            simpa [specCluster, cfg_fm, cfg_om, h1, h2] using this
      | none =>
        refine ⟨?_, ?_, ?_⟩
        · intro p' s' h
          simp only [handleShortOpt, h1, h2] at h
          split at h
          · cases h
          · split at h <;> cases h
        · intro e q h
          simp only [handleShortOpt, h1, h2] at h
          by_cases hh : c = 'h' ∧ p.helptext.isSome = true
          · rw [if_pos hh] at h
            cases h
          · rw [if_neg hh] at h
            by_cases hvv : c = 'v' ∧ p.version.isSome = true
            · rw [if_pos hvv] at h
              cases h
            · rw [if_neg hvv] at h
              have hterm : errTerm e = .errOther := by
                split at h <;> (cases h; rfl)
              simp only [specCluster, cfg_fm, cfg_om, cfg_hasH, cfg_hasV, h1, h2,
                if_neg hh, if_neg hvv, hterm]
        · intro t h
          simp only [handleShortOpt, h1, h2] at h
          simp only [specCluster, cfg_fm, cfg_om, cfg_hasH, cfg_hasV, h1, h2]
          split at h
          · cases h
            rw [if_pos (by assumption)]
          · split at h
            · cases h
              rw [if_neg (by assumption), if_pos (by assumption)]
            · cases h

theorem termOf_err (e : Error) (q : ArgParser) : termOf (.err e q) = errTerm e := by
  cases e <;> rfl

/-- The central correlation theorem: the terminal status of a run equals
the spec walk's terminal, a successful run changes flag counts and option
value lists exactly by the walk's events while keeping the alias maps, and
a run with enough fuel never panics. -/
theorem parseGo_spec : ∀ (fuel : Nat) (p : ArgParser) (b : Bool) (ts : List Tok),
    termOf (parseGo fuel p b ts) = (specWalkGo fuel p.cfg b ts).2 ∧
    (∀ p' evs, parseGo fuel p b ts = .ok p' evs →
      p'.flagMap = p.flagMap ∧ p'.optionMap = p.optionMap ∧
      (mapsValid p = true → stateDelta p p' (specWalkGo fuel p.cfg b ts).1)) ∧
    (ts.length ≤ fuel → parseGo fuel p b ts ≠ .panicked) := by
  intro fuel
  induction fuel with
  | zero =>
    intro p b ts
    cases ts with
    | nil =>
      refine ⟨by simp [parseGo, specWalkGo, termOf], ?_, by intro _; simp [parseGo]⟩
      intro p' evs h
      simp only [parseGo] at h
      cases h
      exact ⟨rfl, rfl, fun _ => by simpa [specWalkGo] using stateDelta_nil p⟩
    | cons arg rest =>
      refine ⟨by simp [parseGo, specWalkGo, termOf], ?_, by intro hf; simp at hf⟩
      intro p' evs h
      simp [parseGo] at h
  | succ fuel ih =>
    intro p b ts
    cases ts with
    | nil =>
      refine ⟨by simp [parseGo, specWalkGo, termOf], ?_, by intro _; simp [parseGo]⟩
      intro p' evs h
      simp only [parseGo] at h
      cases h
      exact ⟨rfl, rfl, fun _ => by simpa [specWalkGo] using stateDelta_nil p⟩
    | cons arg rest =>
      by_cases hdd : arg = str "--"
      · subst hdd
        refine ⟨by simp [parseGo, specWalkGo, termOf], ?_, by intro _; simp [parseGo]⟩
        intro p' evs h
        simp only [parseGo] at h
        simp at h
        obtain ⟨rfl, rfl⟩ := h
        refine ⟨by simp, by simp, fun _ => ?_⟩
        simp only [specWalkGo]
        simp
        exact stateDelta_pushArgs p rest
      · by_cases h2 : arg.take 2 = str "--"
        · by_cases heq : arg.contains '=' = true
          · have hmem : '=' ∈ arg := by simpa using heq
            cases hoe : mapGet p.optionMap ((arg.takeWhile (fun c => c != '=')).dropWhile (fun c => c == '-')) with
            | some i =>
              by_cases hval : ((arg.dropWhile (fun c => c != '=')).drop 1) = []
              · have hval' : (arg.dropWhile (fun c => c != '=')).tail = [] := by simpa using hval
                have hstep : parseGo (fuel+1) p b (arg :: rest) = .err (.MissingValue (str "missing value for " ++ (arg.takeWhile (fun c => c != '=')))) p := by
                  simp [parseGo, handleEqualsOpt, hdd, h2, heq, hmem, hoe, hval, hval']
                have wstep : specWalkGo (fuel+1) p.cfg b (arg :: rest) = ([], .errMissing) := by
                  simp [specWalkGo, hdd, h2, heq, hmem, hoe, hval, hval']
                refine ⟨?_, ?_, ?_⟩
                · rw [hstep, wstep]
                  rfl
                · intro p' evs h
                  rw [hstep] at h
                  simp at h
                · intro hf
                  rw [hstep]
                  simp
              · have hval' : ¬ (arg.dropWhile (fun c => c != '=')).tail = [] := by simpa using hval
                have hstep : parseGo (fuel+1) p b (arg :: rest) = parseGo fuel (p.pushOptValueAt i ((arg.dropWhile (fun c => c != '=')).drop 1)) false rest := by
                  simp [parseGo, handleEqualsOpt, hdd, h2, heq, hmem, hoe, hval, hval']
                have wstep : specWalkGo (fuel+1) p.cfg b (arg :: rest) =
                    (LevelEvent.optPush i ((arg.dropWhile (fun c => c != '=')).drop 1) :: (specWalkGo fuel p.cfg false rest).1, (specWalkGo fuel p.cfg false rest).2) := by
                  simp [specWalkGo, hdd, h2, heq, hmem, hoe, hval, hval']
                refine ⟨?_, ?_, ?_⟩
                · rw [hstep, wstep, (ih (p.pushOptValueAt i ((arg.dropWhile (fun c => c != '=')).drop 1)) false rest).1]
                  simp
                · intro p' evs h
                  rw [hstep] at h
                  obtain ⟨hf1, hf2, hd⟩ := (ih (p.pushOptValueAt i ((arg.dropWhile (fun c => c != '=')).drop 1)) false rest).2.1 p' evs h
                  refine ⟨by simpa using hf1, by simpa using hf2, fun hv => ?_⟩
                  have hi : i < p.options.length := mapGet_lt_of_all (mapsValid_om hv) hoe
                  have hd2 := hd (by simpa using hv)
                  simp only [pushOptValueAt_cfg] at hd2
                  rw [wstep]
                  simpa using stateDelta_trans (stateDelta_pushOptValueAt p i ((arg.dropWhile (fun c => c != '=')).drop 1) hi) hd2
                · intro hf
                  rw [hstep]
                  refine (ih (p.pushOptValueAt i ((arg.dropWhile (fun c => c != '=')).drop 1)) false rest).2.2 ?_
                  simp at hf
                  omega
            | none =>
              have hstep : parseGo (fuel+1) p b (arg :: rest) = .err (.InvalidName ((arg.takeWhile (fun c => c != '=')) ++ str " is not a recognised option name")) p := by
                simp [parseGo, handleEqualsOpt, hdd, h2, heq, hmem, hoe]
              have wstep : specWalkGo (fuel+1) p.cfg b (arg :: rest) = ([], .errOther) := by
                simp [specWalkGo, hdd, h2, heq, hmem, hoe]
              refine ⟨?_, ?_, ?_⟩
              · rw [hstep, wstep]
                rfl
              · intro p' evs h
                rw [hstep] at h
                simp at h
              · intro hf
                rw [hstep]
                simp
          · have hmem : ¬ '=' ∈ arg := by simpa using heq
            cases hfl : mapGet p.flagMap (arg.drop 2) with
            | some i =>
              have hstep : parseGo (fuel+1) p b (arg :: rest) = parseGo fuel (p.incFlagAt i) false rest := by
                simp [parseGo, handleLongOpt, hdd, h2, heq, hmem, hfl]
              have wstep : specWalkGo (fuel+1) p.cfg b (arg :: rest) =
                  (LevelEvent.flagInc i :: (specWalkGo fuel p.cfg false rest).1, (specWalkGo fuel p.cfg false rest).2) := by
                simp [specWalkGo, hdd, h2, heq, hmem, hfl]
              refine ⟨?_, ?_, ?_⟩
              · rw [hstep, wstep, (ih (p.incFlagAt i) false rest).1]
                simp
              · intro p' evs h
                rw [hstep] at h
                obtain ⟨hf1, hf2, hd⟩ := (ih (p.incFlagAt i) false rest).2.1 p' evs h
                refine ⟨by simpa using hf1, by simpa using hf2, fun hv => ?_⟩
                have hi : i < p.flags.length := mapGet_lt_of_all (mapsValid_fm hv) hfl
                have hd2 := hd (by simpa using hv)
                simp only [incFlagAt_cfg] at hd2
                rw [wstep]
                simpa using stateDelta_trans (stateDelta_incFlagAt p i hi) hd2
              · intro hf
                rw [hstep]
                refine (ih (p.incFlagAt i) false rest).2.2 ?_
                simp at hf
                omega
            | none =>
              cases hoe : mapGet p.optionMap (arg.drop 2) with
              | some i =>
                cases rest with
                | nil =>
                  have hstep : parseGo (fuel+1) p b [arg] =
                      .err (.MissingValue (str "missing value for " ++ arg)) p := by
                    simp [parseGo, handleLongOpt, hdd, h2, heq, hmem, hfl, hoe]
                  have wstep : specWalkGo (fuel+1) p.cfg b [arg] = ([], .errMissing) := by
                    simp [specWalkGo, hdd, h2, heq, hmem, hfl, hoe]
                  refine ⟨?_, ?_, ?_⟩
                  · rw [hstep, wstep]
                    rfl
                  · intro p' evs h
                    rw [hstep] at h
                    simp at h
                  · intro hf
                    rw [hstep]
                    simp
                | cons v rest2 =>
                  have hstep : parseGo (fuel+1) p b (arg :: v :: rest2) = parseGo fuel (p.pushOptValueAt i v) false rest2 := by
                    simp [parseGo, handleLongOpt, hdd, h2, heq, hmem, hfl, hoe]
                  have wstep : specWalkGo (fuel+1) p.cfg b (arg :: v :: rest2) =
                      (LevelEvent.optPush i v :: (specWalkGo fuel p.cfg false rest2).1, (specWalkGo fuel p.cfg false rest2).2) := by
                    simp [specWalkGo, hdd, h2, heq, hmem, hfl, hoe]
                  refine ⟨?_, ?_, ?_⟩
                  · rw [hstep, wstep, (ih (p.pushOptValueAt i v) false rest2).1]
                    simp
                  · intro p' evs h
                    rw [hstep] at h
                    obtain ⟨hf1, hf2, hd⟩ := (ih (p.pushOptValueAt i v) false rest2).2.1 p' evs h
                    refine ⟨by simpa using hf1, by simpa using hf2, fun hv => ?_⟩
                    have hi : i < p.options.length := mapGet_lt_of_all (mapsValid_om hv) hoe
                    have hd2 := hd (by simpa using hv)
                    simp only [pushOptValueAt_cfg] at hd2
                    rw [wstep]
                    simpa using stateDelta_trans (stateDelta_pushOptValueAt p i v hi) hd2
                  · intro hf
                    rw [hstep]
                    refine (ih (p.pushOptValueAt i v) false rest2).2.2 ?_
                    simp at hf
                    omega
              | none =>
                by_cases hhp : arg = str "--help" ∧ p.helptext.isSome = true
                · obtain ⟨harg, hht⟩ := hhp
                  subst harg
                  have hstep : parseGo (fuel+1) p b (str "--help" :: rest) = .exited (trimTok (p.helptext.getD [])) := by
                    simp [parseGo, handleLongOpt, hdd, h2, heq, hmem, hfl, hoe, hht]
                  have wstep : specWalkGo (fuel+1) p.cfg b (str "--help" :: rest) = ([], .exited) := by
                    simp [specWalkGo, hdd, h2, heq, hmem, hfl, hoe, hht]
                  refine ⟨?_, ?_, ?_⟩
                  · rw [hstep, wstep]
                    rfl
                  · intro p' evs h
                    rw [hstep] at h
                    simp at h
                  · intro hf
                    rw [hstep]
                    simp
                · by_cases hvp : arg = str "--version" ∧ p.version.isSome = true
                  · obtain ⟨harg, hvt⟩ := hvp
                    subst harg
                    have hstep : parseGo (fuel+1) p b (str "--version" :: rest) = .exited (trimTok (p.version.getD [])) := by
                      simp [parseGo, handleLongOpt, hdd, h2, heq, hmem, hfl, hoe, hhp, hvt]
                    have wstep : specWalkGo (fuel+1) p.cfg b (str "--version" :: rest) = ([], .exited) := by
                      simp [specWalkGo, hdd, h2, heq, hmem, hfl, hoe, hhp, hvt]
                    refine ⟨?_, ?_, ?_⟩
                    · rw [hstep, wstep]
                      rfl
                    · intro p' evs h
                      rw [hstep] at h
                      simp at h
                    · intro hf
                      rw [hstep]
                      simp
                  · have hstep : parseGo (fuel+1) p b (arg :: rest) = .err (.InvalidName (arg ++ str " is not a recognised flag or option name")) p := by
                      simp [parseGo, handleLongOpt, hdd, h2, heq, hmem, hfl, hoe, hhp, hvp]
                    have wstep : specWalkGo (fuel+1) p.cfg b (arg :: rest) = ([], .errOther) := by
                      simp [specWalkGo, hdd, h2, heq, hmem, hfl, hoe, hhp, hvp]
                    refine ⟨?_, ?_, ?_⟩
                    · rw [hstep, wstep]
                      rfl
                    · intro p' evs h
                      rw [hstep] at h
                      simp at h
                    · intro hf
                      rw [hstep]
                      simp
        · by_cases h3 : arg.take 1 = str "-"
          · obtain ⟨atl, rfl⟩ : ∃ tl, arg = '-' :: tl := by
              cases arg with
              | nil => simp [str] at h3
              | cons a0 tl =>
                have ha : a0 = '-' := by simpa [str] using h3
                exact ⟨tl, by rw [ha]⟩
            cases atl with
            | nil =>
              have h3' : str "-" = (['-'] : Tok) := rfl
              have hstep : parseGo (fuel+1) p b (['-'] :: rest) = parseGo fuel (p.pushArg ['-']) false rest := by
                simp [parseGo, hdd, h2, h3, h3']
              have wstep : specWalkGo (fuel+1) p.cfg b (['-'] :: rest) = specWalkGo fuel p.cfg false rest := by
                simp [specWalkGo, hdd, h2, h3, h3']
              refine ⟨?_, ?_, ?_⟩
              · rw [hstep, wstep, (ih (p.pushArg ['-']) false rest).1]
                simp
              · intro p' evs h
                rw [hstep] at h
                obtain ⟨hf1, hf2, hd⟩ := (ih (p.pushArg ['-']) false rest).2.1 p' evs h
                refine ⟨by simpa using hf1, by simpa using hf2, fun hv => ?_⟩
                have hd2 := hd (by simpa using hv)
                simp only [pushArg_cfg] at hd2
                rw [wstep]
                simpa using stateDelta_trans (stateDelta_pushArg p ['-']) hd2
              · intro hf
                rw [hstep]
                refine (ih (p.pushArg ['-']) false rest).2.2 ?_
                simp at hf
                omega
            | cons c ctl =>
              have h2' : ¬ (['-', c] : Tok) = str "--" := by simpa using h2
              have h3' : str "-" = (['-'] : Tok) := rfl
              by_cases hnum : rustIsNumeric c = true
              · have hstep : parseGo (fuel+1) p b (('-' :: c :: ctl) :: rest) = parseGo fuel (p.pushArg ('-' :: c :: ctl)) false rest := by
                  simp [parseGo, hdd, h2, h2', h3, h3', hnum]
                have wstep : specWalkGo (fuel+1) p.cfg b (('-' :: c :: ctl) :: rest) = specWalkGo fuel p.cfg false rest := by
                  simp [specWalkGo, hdd, h2, h2', h3, h3', hnum]
                refine ⟨?_, ?_, ?_⟩
                · rw [hstep, wstep, (ih (p.pushArg ('-' :: c :: ctl)) false rest).1]
                  simp
                · intro p' evs h
                  rw [hstep] at h
                  obtain ⟨hf1, hf2, hd⟩ := (ih (p.pushArg ('-' :: c :: ctl)) false rest).2.1 p' evs h
                  refine ⟨by simpa using hf1, by simpa using hf2, fun hv => ?_⟩
                  have hd2 := hd (by simpa using hv)
                  simp only [pushArg_cfg] at hd2
                  rw [wstep]
                  simpa using stateDelta_trans (stateDelta_pushArg p ('-' :: c :: ctl)) hd2
                · intro hf
                  rw [hstep]
                  refine (ih (p.pushArg ('-' :: c :: ctl)) false rest).2.2 ?_
                  simp at hf
                  omega
              · by_cases heq : ('-' :: c :: ctl).contains '=' = true
                · have hmem : '=' ∈ ('-' :: c :: ctl) := by simpa using heq
                  have hmem' : '=' = c ∨ '=' ∈ ctl := by simpa using hmem
                  cases hoe : mapGet p.optionMap ((('-' :: c :: ctl).takeWhile (fun c => c != '=')).dropWhile (fun c => c == '-')) with
                  | some i =>
                    by_cases hval : ((('-' :: c :: ctl).dropWhile (fun c => c != '=')).drop 1) = []
                    · have hval' : ((c :: ctl).dropWhile (fun c => c != '=')).tail = [] := by simpa using hval
                      have hoe' : mapGet p.optionMap (((c :: ctl).takeWhile (fun c => c != '=')).dropWhile (fun c => c == '-')) = some i := by simpa using hoe
                      have hstep : parseGo (fuel+1) p b (('-' :: c :: ctl) :: rest) = .err (.MissingValue (str "missing value for " ++ (('-' :: c :: ctl).takeWhile (fun c => c != '=')))) p := by
                        simp [parseGo, handleEqualsOpt, hdd, h2, h2', h3, h3', hnum, heq, hmem, hmem', hoe, hoe', hval, hval']
                      have wstep : specWalkGo (fuel+1) p.cfg b (('-' :: c :: ctl) :: rest) = ([], .errMissing) := by
                        simp [specWalkGo, hdd, h2, h2', h3, h3', hnum, heq, hmem, hmem', hoe, hoe', hval, hval']
                      refine ⟨?_, ?_, ?_⟩
                      · rw [hstep, wstep]
                        rfl
                      · intro p' evs h
                        rw [hstep] at h
                        simp at h
                      · intro hf
                        rw [hstep]
                        simp
                    · have hval' : ¬ ((c :: ctl).dropWhile (fun c => c != '=')).tail = [] := by simpa using hval
                      have hoe' : mapGet p.optionMap (((c :: ctl).takeWhile (fun c => c != '=')).dropWhile (fun c => c == '-')) = some i := by simpa using hoe
                      have hstep : parseGo (fuel+1) p b (('-' :: c :: ctl) :: rest) = parseGo fuel (p.pushOptValueAt i ((('-' :: c :: ctl).dropWhile (fun c => c != '=')).drop 1)) false rest := by
                        simp [parseGo, handleEqualsOpt, hdd, h2, h2', h3, h3', hnum, heq, hmem, hmem', hoe, hoe', hval, hval']
                      have wstep : specWalkGo (fuel+1) p.cfg b (('-' :: c :: ctl) :: rest) =
                          (LevelEvent.optPush i ((('-' :: c :: ctl).dropWhile (fun c => c != '=')).drop 1) :: (specWalkGo fuel p.cfg false rest).1, (specWalkGo fuel p.cfg false rest).2) := by
                        simp [specWalkGo, hdd, h2, h2', h3, h3', hnum, heq, hmem, hmem', hoe, hoe', hval, hval']
                      refine ⟨?_, ?_, ?_⟩
                      · rw [hstep, wstep, (ih (p.pushOptValueAt i ((('-' :: c :: ctl).dropWhile (fun c => c != '=')).drop 1)) false rest).1]
                        simp
                      · intro p' evs h
                        rw [hstep] at h
                        obtain ⟨hf1, hf2, hd⟩ := (ih (p.pushOptValueAt i ((('-' :: c :: ctl).dropWhile (fun c => c != '=')).drop 1)) false rest).2.1 p' evs h
                        refine ⟨by simpa using hf1, by simpa using hf2, fun hv => ?_⟩
                        have hi : i < p.options.length := mapGet_lt_of_all (mapsValid_om hv) hoe
                        have hd2 := hd (by simpa using hv)
                        simp only [pushOptValueAt_cfg] at hd2
                        rw [wstep]
                        simpa using stateDelta_trans (stateDelta_pushOptValueAt p i ((('-' :: c :: ctl).dropWhile (fun c => c != '=')).drop 1) hi) hd2
                      · intro hf
                        rw [hstep]
                        refine (ih (p.pushOptValueAt i ((('-' :: c :: ctl).dropWhile (fun c => c != '=')).drop 1)) false rest).2.2 ?_
                        simp at hf
                        omega
                  | none =>
                    have hoe' : mapGet p.optionMap (((c :: ctl).takeWhile (fun c => c != '=')).dropWhile (fun c => c == '-')) = none := by simpa using hoe
                    have hstep : parseGo (fuel+1) p b (('-' :: c :: ctl) :: rest) = .err (.InvalidName ((('-' :: c :: ctl).takeWhile (fun c => c != '=')) ++ str " is not a recognised option name")) p := by
                      simp [parseGo, handleEqualsOpt, hdd, h2, h2', h3, h3', hnum, heq, hmem, hmem', hoe, hoe']
                    have wstep : specWalkGo (fuel+1) p.cfg b (('-' :: c :: ctl) :: rest) = ([], .errOther) := by
                      simp [specWalkGo, hdd, h2, h2', h3, h3', hnum, heq, hmem, hmem', hoe, hoe']
                    refine ⟨?_, ?_, ?_⟩
                    · rw [hstep, wstep]
                      rfl
                    · intro p' evs h
                      rw [hstep] at h
                      simp at h
                    · intro hf
                      rw [hstep]
                      simp
                · have hmem : ¬ '=' ∈ ('-' :: c :: ctl) := by simpa using heq
                  have hmem' : ¬ ('=' = c ∨ '=' ∈ ctl) := by simpa using hmem
                  cases hso : handleShortOpt p ('-' :: c :: ctl) (c :: ctl) rest with
                  | ok p1 s1 =>
                    obtain ⟨hcfg, hargs, hmv, ht, hs, hdelta⟩ :=
                      (handleShortOpt_spec ('-' :: c :: ctl) (c :: ctl) p rest).1 p1 s1 hso
                    have hfm1 : p1.flagMap = p.flagMap := by rw [← cfg_fm, ← cfg_fm, hcfg]
                    have hom1 : p1.optionMap = p.optionMap := by rw [← cfg_om, ← cfg_om, hcfg]
                    have hstep : parseGo (fuel+1) p b (('-' :: c :: ctl) :: rest) =
                        parseGo fuel p1 false s1 := by
                      simp [parseGo, hdd, h2, h2', h3, h3', hnum, heq, hmem, hmem', hso]
                    have wstep : specWalkGo (fuel+1) p.cfg b (('-' :: c :: ctl) :: rest) =
                        ((specCluster p.cfg (c :: ctl) rest).1 ++ (specWalkGo fuel p.cfg false s1).1,
                          (specWalkGo fuel p.cfg false s1).2) := by
                      simp [specWalkGo, hdd, h2, h2', h3, h3', hnum, heq, hmem, hmem', ht, hs]
                    refine ⟨?_, ?_, ?_⟩
                    · rw [hstep, wstep, (ih p1 false s1).1, hcfg]
                    · intro p' evs h
                      rw [hstep] at h
                      obtain ⟨hf1, hf2, hd⟩ := (ih p1 false s1).2.1 p' evs h
                      refine ⟨hf1.trans hfm1, hf2.trans hom1, fun hv => ?_⟩
                      have hd2 := hd (by rw [hmv]; exact hv)
                      rw [hcfg] at hd2
                      rw [wstep]
                      simpa using stateDelta_trans (hdelta hv) hd2
                    · intro hf
                      rw [hstep]
                      refine (ih p1 false s1).2.2 ?_
                      have hle := specCluster_stream_le p.cfg (c :: ctl) rest
                      rw [hs] at hle
                      simp at hf
                      omega
                  | err e q =>
                    have ht := (handleShortOpt_spec ('-' :: c :: ctl) (c :: ctl) p rest).2.1 e q hso
                    have hstep : parseGo (fuel+1) p b (('-' :: c :: ctl) :: rest) = .err e q := by
                      simp [parseGo, hdd, h2, h2', h3, h3', hnum, heq, hmem, hmem', hso]
                    have wstep : specWalkGo (fuel+1) p.cfg b (('-' :: c :: ctl) :: rest) =
                        ((specCluster p.cfg (c :: ctl) rest).1, errTerm e) := by
                      simp [specWalkGo, hdd, h2, h2', h3, h3', hnum, heq, hmem, hmem', ht]
                    refine ⟨?_, ?_, ?_⟩
                    · rw [hstep, wstep, termOf_err]
                    · intro p' evs h
                      rw [hstep] at h
                      simp at h
                    · intro hf
                      rw [hstep]
                      simp
                  | exited t =>
                    have ht := (handleShortOpt_spec ('-' :: c :: ctl) (c :: ctl) p rest).2.2 t hso
                    have hstep : parseGo (fuel+1) p b (('-' :: c :: ctl) :: rest) = .exited t := by
                      simp [parseGo, hdd, h2, h2', h3, h3', hnum, heq, hmem, hmem', hso]
                    have wstep : specWalkGo (fuel+1) p.cfg b (('-' :: c :: ctl) :: rest) =
                        ((specCluster p.cfg (c :: ctl) rest).1, .exited) := by
                      simp [specWalkGo, hdd, h2, h2', h3, h3', hnum, heq, hmem, hmem', ht]
                    refine ⟨?_, ?_, ?_⟩
                    · rw [hstep, wstep]
                      rfl
                    · intro p' evs h
                      rw [hstep] at h
                      simp at h
                    · intro hf
                      rw [hstep]
                      simp
          · by_cases hcmd : b = true ∧ (mapGet p.commandMap arg).isSome = true
            · obtain ⟨hb, hsome⟩ := hcmd
              subst hb
              obtain ⟨i, hci⟩ := Option.isSome_iff_exists.mp hsome
              have wstep : specWalkGo (fuel+1) p.cfg true (arg :: rest) =
                  ([], (specWalkGo fuel (p.commands[i]?.getD ArgParser.new).cfg true rest).2) := by
                simp [specWalkGo, hdd, h2, h3, hci]
              cases hip : parseGo fuel (p.commands[i]?.getD ArgParser.new) true rest with
              | ok cmdP1 evs0 =>
                have hstep : parseGo (fuel+1) p true (arg :: rest) =
                    .ok ((p.clearCmds).setCmd arg cmdP1)
                      (evs0 ++ (if (p.commands[i]?.getD ArgParser.new).hasCallback then [(arg, cmdP1)] else [])) := by
                  simp [parseGo, hdd, h2, h3, hci, hip]
                refine ⟨?_, ?_, ?_⟩
                · rw [hstep, wstep, ← (ih (p.commands[i]?.getD ArgParser.new) true rest).1, hip]
                  rfl
                · intro p' evs h
                  rw [hstep] at h
                  cases h
                  refine ⟨by simp, by simp, fun hv => ?_⟩
                  rw [wstep]
                  simpa using stateDelta_trans (stateDelta_clearCmds p) (stateDelta_setCmd p.clearCmds arg cmdP1)
                · intro hf
                  rw [hstep]
                  simp
              | err e q =>
                have hstep : parseGo (fuel+1) p true (arg :: rest) = .err e p.clearCmds := by
                  simp [parseGo, hdd, h2, h3, hci, hip]
                refine ⟨?_, ?_, ?_⟩
                · rw [hstep, wstep, ← (ih (p.commands[i]?.getD ArgParser.new) true rest).1, hip]
                  rw [termOf_err, termOf_err]
                · intro p' evs h
                  rw [hstep] at h
                  simp at h
                · intro hf
                  rw [hstep]
                  simp
              | exited t =>
                have hstep : parseGo (fuel+1) p true (arg :: rest) = .exited t := by
                  simp [parseGo, hdd, h2, h3, hci, hip]
                refine ⟨?_, ?_, ?_⟩
                · rw [hstep, wstep, ← (ih (p.commands[i]?.getD ArgParser.new) true rest).1, hip]
                · intro p' evs h
                  rw [hstep] at h
                  simp at h
                · intro hf
                  rw [hstep]
                  simp
              | panicked =>
                have hstep : parseGo (fuel+1) p true (arg :: rest) = .panicked := by
                  simp [parseGo, hdd, h2, h3, hci, hip]
                refine ⟨?_, ?_, ?_⟩
                · rw [hstep, wstep, ← (ih (p.commands[i]?.getD ArgParser.new) true rest).1, hip]
                · intro p' evs h
                  rw [hstep] at h
                  simp at h
                · intro hf
                  exact absurd hip ((ih (p.commands[i]?.getD ArgParser.new) true rest).2.2 (by simpa using hf))
            · by_cases hhelp : b = true ∧ p.cmdHelp = true ∧ arg = str "help"
              · obtain ⟨hb, hch, harg⟩ := hhelp
                subst hb
                subst harg
                have hcm : mapGet p.commandMap (str "help") = none := by
                  cases hx : mapGet p.commandMap (str "help") with
                  | none => rfl
                  | some j => exact absurd ⟨rfl, by simp [hx]⟩ hcmd
                cases rest with
                | nil =>
                  have hstep : parseGo (fuel+1) p true [str "help"] = .err .MissingHelpArg p := by
                    simp [parseGo, hdd, h2, h3, hcm, hch]
                  have wstep : specWalkGo (fuel+1) p.cfg true [str "help"] = ([], .errOther) := by
                    simp [specWalkGo, hdd, h2, h3, hcm, hch]
                  refine ⟨?_, ?_, ?_⟩
                  · rw [hstep, wstep]
                    rfl
                  · intro p' evs h
                    rw [hstep] at h
                    simp at h
                  · intro hf
                    rw [hstep]
                    simp
                | cons name rest2 =>
                  cases hcn : mapGet p.commandMap name with
                  | some j =>
                    have hstep : parseGo (fuel+1) p true (str "help" :: name :: rest2) =
                        .exited (trimTok ((p.commands.getD j ArgParser.new).helptext.getD [])) := by
                      simp [parseGo, hdd, h2, h3, hcm, hch, hcn]
                    have wstep : specWalkGo (fuel+1) p.cfg true (str "help" :: name :: rest2) =
                        ([], .exited) := by
                      simp [specWalkGo, hdd, h2, h3, hcm, hch, hcn]
                    refine ⟨?_, ?_, ?_⟩
                    · rw [hstep, wstep]
                      rfl
                    · intro p' evs h
                      rw [hstep] at h
                      simp at h
                    · intro hf
                      rw [hstep]
                      simp
                  | none =>
                    have hstep : parseGo (fuel+1) p true (str "help" :: name :: rest2) =
                        .err (.InvalidName (str "'" ++ name ++ str "' is not a recognised command name")) p := by
                      simp [parseGo, hdd, h2, h3, hcm, hch, hcn]
                    have wstep : specWalkGo (fuel+1) p.cfg true (str "help" :: name :: rest2) =
                        ([], .errOther) := by
                      simp [specWalkGo, hdd, h2, h3, hcm, hch, hcn]
                    refine ⟨?_, ?_, ?_⟩
                    · rw [hstep, wstep]
                      rfl
                    · intro p' evs h
                      rw [hstep] at h
                      simp at h
                    · intro hf
                      rw [hstep]
                      simp
              · have hstep : parseGo (fuel+1) p b (arg :: rest) = parseGo fuel (p.pushArg arg) false rest := by
                  simp [parseGo, hdd, h2, h3, hcmd, hhelp]
                have wstep : specWalkGo (fuel+1) p.cfg b (arg :: rest) = specWalkGo fuel p.cfg false rest := by
                  simp [specWalkGo, hdd, h2, h3, hcmd, hhelp]
                refine ⟨?_, ?_, ?_⟩
                · rw [hstep, wstep, (ih (p.pushArg arg) false rest).1]
                  simp
                · intro p' evs h
                  rw [hstep] at h
                  obtain ⟨hf1, hf2, hd⟩ := (ih (p.pushArg arg) false rest).2.1 p' evs h
                  refine ⟨by simpa using hf1, by simpa using hf2, fun hv => ?_⟩
                  have hd2 := hd (by simpa using hv)
                  simp only [pushArg_cfg] at hd2
                  rw [wstep]
                  simpa using stateDelta_trans (stateDelta_pushArg p arg) hd2
                · intro hf
                  rw [hstep]
                  refine (ih (p.pushArg arg) false rest).2.2 ?_
                  simp at hf
                  omega

/-!
Claim theorems and their witnesses.  Concrete parsers used by the
witnesses are built through the registration API.
-/

/-- Claim C1: for every registered flag f and every token sequence on
which parse_vec succeeds, count applied to any alias of f equals the
number of long tokens whose text after the two dashes is an alias of f,
plus the occurrences of single-character aliases of f among the cluster
characters, counting only tokens classified at this parser level before
any end-of-options sentinel.  The spec-side tally is flagHits of the
specWalk events: specWalk emits one flagInc event per long token whose
key resolves to the flag and one per matching cluster character, stops at
the sentinel and at a sub-command dispatch, and skips consumed option
values. -/
theorem claim1_flag_count (p : ArgParser) (ts : List Tok) (a : Tok) (i : Nat)
    (p' : ArgParser) (evs : List CallbackEvent)
    (hv : mapsValid p = true)
    (ha : mapGet p.flagMap a = some i)
    (hi : i < p.flags.length)
    (h0 : (p.flags.getD i defFlag).count = 0)
    (hok : parseVec p ts = .ok p' evs) :
    p'.count a = some (flagHits (specWalk p.cfg true ts).1 i) := by
  obtain ⟨hfm, _, hd⟩ := (parseGo_spec ts.length p true ts).2.1 p' evs hok
  obtain ⟨_, _, hc, _⟩ := hd hv
  have := hc i hi
  rw [h0, Nat.zero_add] at this
  simp only [ArgParser.count, hfm, ha]
  rw [this]
  rfl

def cw1 : ArgParser := ArgParser.new.flag (str "flag f")

def ts1 : List Tok := [str "-fff", str "--flag"]

def res1 : ArgParser := (((cw1.incFlagAt 0).incFlagAt 0).incFlagAt 0).incFlagAt 0

theorem claim1_witness :
    res1.count (str "f") = some (flagHits (specWalk cw1.cfg true ts1).1 0) ∧
    parseVec cw1 ts1 = .ok res1 [] ∧
    flagHits (specWalk cw1.cfg true ts1).1 0 = 4 :=
  ⟨claim1_flag_count cw1 ts1 (str "f") 0 res1 [] rfl rfl (by decide) rfl rfl, rfl, rfl⟩

/-- Claim C2: for every registered option and every successful parse,
values lists the supplied values in input order (the walk's optPush
events, in order of classification) and value is the last supplied value,
or the registered default when none was supplied. -/
theorem claim2_values_order (p : ArgParser) (ts : List Tok) (name : Tok) (i : Nat)
    (p' : ArgParser) (evs : List CallbackEvent)
    (hv : mapsValid p = true)
    (ha : mapGet p.optionMap name = some i)
    (hi : i < p.options.length)
    (h0 : (p.options.getD i defOpt).values = [])
    (hok : parseVec p ts = .ok p' evs) :
    p'.values name = some (optHits (specWalk p.cfg true ts).1 i) ∧
    p'.value name = some ((optHits (specWalk p.cfg true ts).1 i).getLast?.getD
      ((p.options.getD i defOpt).default)) := by
  obtain ⟨_, hom, hd⟩ := (parseGo_spec ts.length p true ts).2.1 p' evs hok
  obtain ⟨_, _, _, hvals⟩ := hd hv
  obtain ⟨hlist, hdflt⟩ := hvals i hi
  rw [h0, List.nil_append] at hlist
  constructor
  · simp only [ArgParser.values, hom, ha]
    rw [hlist]
    rfl
  · have hv2 : p'.value name = some ((p'.options.getD i defOpt).values.getLast?.getD
        ((p'.options.getD i defOpt).default)) := by
      simp only [ArgParser.value, hom, ha]
      cases hl : (p'.options.getD i defOpt).values.getLast? <;> simp [hl]
    rw [hv2, hlist, hdflt]
    rfl

def cw2 : ArgParser := ArgParser.new.option (str "opt o") (str "dflt")

def ts2 : List Tok := [str "-o", str "foo", str "--opt", str "bar"]

def res2 : ArgParser := (cw2.pushOptValueAt 0 (str "foo")).pushOptValueAt 0 (str "bar")

theorem claim2_witness :
    (res2.values (str "opt") = some (optHits (specWalk cw2.cfg true ts2).1 0) ∧
     res2.value (str "opt") = some ((optHits (specWalk cw2.cfg true ts2).1 0).getLast?.getD
      ((cw2.options.getD 0 defOpt).default))) ∧
    parseVec cw2 ts2 = .ok res2 [] ∧
    optHits (specWalk cw2.cfg true ts2).1 0 = [str "foo", str "bar"] :=
  ⟨claim2_values_order cw2 ts2 (str "opt") 0 res2 [] rfl rfl (by decide) rfl rfl, rfl, rfl⟩

/-- Claim C3: parsing a token sequence returns the MissingValue error
exactly when the spec walk terminates with errMissing; by its definition,
the walk terminates with errMissing exactly when (a) a token routed to
the equals handler whose name part, stripped of leading dashes, is a
registered option alias has an empty value part, or (b) a long token
resolving to a registered option, or a cluster character resolving to a
registered option alias, is processed with no next token in the stream;
and in every other case where such a token resolves to a registered
option the walk records the appended value, which the second conjunct
carries back to the option's value list on success. -/
theorem claim3_missing_value (p : ArgParser) (ts : List Tok) :
    ((∃ m q, parseVec p ts = .err (.MissingValue m) q) ↔
      (specWalk p.cfg true ts).2 = .errMissing) ∧
    (∀ p' evs i, parseVec p ts = .ok p' evs → mapsValid p = true → i < p.options.length →
      (p'.options.getD i defOpt).values =
        (p.options.getD i defOpt).values ++ optHits (specWalk p.cfg true ts).1 i) := by
  have hterm : termOf (parseVec p ts) = (specWalk p.cfg true ts).2 :=
    (parseGo_spec ts.length p true ts).1
  constructor
  · constructor
    · rintro ⟨m, q, he⟩
      rw [he] at hterm
      simpa [termOf] using hterm.symm
    · intro hw
      rw [hw] at hterm
      cases ho : parseVec p ts with
      | ok a b => rw [ho] at hterm; simp [termOf] at hterm
      | err e q =>
        cases e with
        | MissingValue m => exact ⟨m, q, rfl⟩
        | InvalidName m => rw [ho] at hterm; simp [termOf] at hterm
        | MissingHelpArg => rw [ho] at hterm; simp [termOf] at hterm
        | InvalidUnicode => rw [ho] at hterm; simp [termOf] at hterm
      | exited t => rw [ho] at hterm; simp [termOf] at hterm
      | panicked => rw [ho] at hterm; simp [termOf] at hterm
  · intro p' evs i hok hv hi
    obtain ⟨_, _, hd⟩ := (parseGo_spec ts.length p true ts).2.1 p' evs hok
    exact ((hd hv).2.2.2 i hi).1

theorem claim3_witness :
    (((∃ m q, parseVec cw2 [str "--opt"] = .err (.MissingValue m) q) ↔
      (specWalk cw2.cfg true [str "--opt"]).2 = .errMissing) ∧
    (∀ p' evs i, parseVec cw2 [str "--opt"] = .ok p' evs → mapsValid cw2 = true →
      i < cw2.options.length →
      (p'.options.getD i defOpt).values =
        (cw2.options.getD i defOpt).values ++ optHits (specWalk cw2.cfg true [str "--opt"]).1 i)) ∧
    (specWalk cw2.cfg true [str "--opt"]).2 = .errMissing ∧
    parseVec cw2 [str "--opt"] =
      .err (.MissingValue (str "missing value for " ++ str "--opt")) cw2 :=
  ⟨claim3_missing_value cw2 [str "--opt"], rfl, rfl⟩

def arabicTwo : Char := Char.ofNat 0x662

/-- Counterexample to claim C4 as stated: the ARABIC-INDIC DIGIT TWO
character is numeric for Rust char::is_numeric but is not an ASCII digit,
and the token dash-two lands in the positional arguments even though it
is neither the lone dash nor dash-ASCII-digit, while the claim says such
a token is processed as a short cluster. -/
theorem claim4_counterexample :
    parseVec ArgParser.new [['-', arabicTwo]] = .ok (ArgParser.new.pushArg ['-', arabicTwo]) [] ∧
    (ArgParser.new.pushArg ['-', arabicTwo]).args = [['-', arabicTwo]] ∧
    ¬ (['-', arabicTwo] : Tok) = str "-" ∧
    arabicTwo.isDigit = false ∧
    rustIsNumeric arabicTwo = true := by
  refine ⟨rfl, rfl, by decide, by decide, by decide⟩

/-- Claim C4 as amended: a token that begins with a dash, is not the
end-of-options sentinel and does not begin with two dashes is appended to
the positional-argument list if and only if it equals the lone dash or
the character immediately after the dash satisfies Rust char::is_numeric
(the Unicode number categories, not merely the ASCII digits); otherwise,
when it also contains no equals sign, its characters after the dash are
processed as a short cluster, which never touches the positional list. -/
theorem claim4_short_positional (fuel : Nat) (p : ArgParser) (b : Bool)
    (c : Char) (ctl : List Char) (rest : List Tok) (hc : ¬ c = '-') :
    (rustIsNumeric c = true →
      parseGo (fuel+1) p b (('-' :: c :: ctl) :: rest) =
        parseGo fuel (p.pushArg ('-' :: c :: ctl)) false rest)
    ∧ (parseGo (fuel+1) p b (['-'] :: rest) = parseGo fuel (p.pushArg ['-']) false rest)
    ∧ (rustIsNumeric c = false → ('-' :: c :: ctl).contains '=' = false →
        parseGo (fuel+1) p b (('-' :: c :: ctl) :: rest) =
          (match handleShortOpt p ('-' :: c :: ctl) (c :: ctl) rest with
            | .ok p1 s1 => parseGo fuel p1 false s1
            | .err e q => .err e q
            | .exited t => .exited t))
    ∧ (∀ q s, handleShortOpt p ('-' :: c :: ctl) (c :: ctl) rest = .ok q s → q.args = p.args)
    ∧ (p.pushArg ('-' :: c :: ctl)).args = p.args ++ [('-' :: c :: ctl)] := by
  have hsd : str "--" = (['-', '-'] : Tok) := rfl
  have hs1 : str "-" = (['-'] : Tok) := rfl
  refine ⟨?_, ?_, ?_, ?_, by simp⟩
  · intro hnum
    simp [parseGo, hsd, hs1, hc, hnum]
  · simp [parseGo, hsd, hs1]
  · intro hnum heqF
    have hmem : ¬ '=' ∈ ('-' :: c :: ctl) := by
      intro hm
      have hcontra : ('-' :: c :: ctl).contains '=' = true := by simpa using hm
      rw [hcontra] at heqF
      cases heqF
    have hmem' : ¬ ('=' = c ∨ '=' ∈ ctl) := by simpa using hmem
    simp [parseGo, hsd, hs1, hc, hnum, hmem, hmem']
  · intro q s hso
    exact ((handleShortOpt_spec ('-' :: c :: ctl) (c :: ctl) p rest).1 q s hso).2.1

theorem claim4_witness :
    parseGo 1 ArgParser.new true [['-', '5']] =
      parseGo 0 (ArgParser.new.pushArg ['-', '5']) false [] ∧
    parseGo 1 ArgParser.new true [['-']] = parseGo 0 (ArgParser.new.pushArg ['-']) false [] :=
  ⟨(claim4_short_positional 0 ArgParser.new true '5' [] [] (by decide)).1 (by decide),
   (claim4_short_positional 0 ArgParser.new true '5' [] [] (by decide)).2.1⟩

/-- Claim C5: after the end-of-options sentinel, every remaining token is
appended unchanged and in order to the positional-argument list of the
parser at that level, with no classification, and parsing of the
remainder never fails. -/
theorem claim5_sentinel (fuel : Nat) (p : ArgParser) (b : Bool) (ts : List Tok) :
    parseGo (fuel+1) p b (str "--" :: ts) = .ok (p.pushArgs ts) [] ∧
    (p.pushArgs ts).args = p.args ++ ts := by
  refine ⟨by simp [parseGo], by simp⟩

/-- Claim C6: when the first token at a level matches a registered
sub-command alias (and is not classified by the earlier dash rules), the
rest of the stream is parsed by the sub-command parser; exactly on
success the callback event is recorded (when a callback is registered)
with the matched alias and the parsed sub-parser, and cmd_name and
cmd_parser are set to them; on failure the error is returned and
cmd_name and cmd_parser keep their previous (unset) values. -/
theorem claim6_subcommand (fuel : Nat) (p : ArgParser) (arg : Tok) (rest : List Tok)
    (i : Nat) (cmdP : ArgParser)
    (hdash : ¬ arg.take 1 = str "-")
    (hci : mapGet p.commandMap arg = some i)
    (hcp : p.commands.getD i ArgParser.new = cmdP) :
    (∀ cmdP' evs, parseGo fuel cmdP true rest = .ok cmdP' evs →
      parseGo (fuel+1) p true (arg :: rest) =
        .ok ((p.clearCmds).setCmd arg cmdP')
          (evs ++ if cmdP.hasCallback = true then [(arg, cmdP')] else []) ∧
      ((p.clearCmds).setCmd arg cmdP').cmdName = some arg ∧
      ((p.clearCmds).setCmd arg cmdP').cmdParser = some cmdP')
    ∧ (∀ e q, parseGo fuel cmdP true rest = .err e q →
      parseGo (fuel+1) p true (arg :: rest) = .err e p.clearCmds ∧
      (p.clearCmds).cmdName = p.cmdName ∧ (p.clearCmds).cmdParser = p.cmdParser) := by
  have hsd : str "--" = (['-', '-'] : Tok) := rfl
  have hs1 : str "-" = (['-'] : Tok) := rfl
  have hdd : ¬ arg = str "--" := by
    intro h
    subst h
    exact hdash rfl
  have h2 : ¬ arg.take 2 = str "--" := by
    intro h
    apply hdash
    cases arg with
    | nil => rw [hsd] at h; simp at h
    | cons a0 tl =>
      rw [hsd] at h
      simp at h
      rw [hs1]
      simp [h.1]
  have hcp' : p.commands[i]?.getD ArgParser.new = cmdP := by simpa using hcp
  have hstep : parseGo (fuel+1) p true (arg :: rest) =
      (match parseGo fuel cmdP true rest with
        | .ok cmdP' evs =>
          .ok ((p.clearCmds).setCmd arg cmdP')
            (evs ++ if cmdP.hasCallback = true then [(arg, cmdP')] else [])
        | .err e _ => .err e p.clearCmds
        | .exited t => .exited t
        | .panicked => .panicked) := by
    simp [parseGo, hdd, h2, hdash, hci, hcp']
  constructor
  · intro cmdP' evs hok
    rw [hstep, hok]
    exact ⟨rfl, by simp, by simp⟩
  · intro e q herr
    rw [hstep, herr]
    exact ⟨rfl, by simp, by simp⟩

def cmd6 : ArgParser := (ArgParser.new.flag (str "x")).withCallback

def cw6 : ArgParser := ArgParser.new.command (str "cmd") cmd6

def res6 : ArgParser := (cmd6.incFlagAt 0).pushArg (str "pos")

theorem claim6_witness :
    parseGo 3 cw6 true (str "cmd" :: [str "-x", str "pos"]) =
      .ok ((cw6.clearCmds).setCmd (str "cmd") res6)
        ([] ++ if cmd6.hasCallback = true then [(str "cmd", res6)] else []) ∧
    ((cw6.clearCmds).setCmd (str "cmd") res6).cmdName = some (str "cmd") ∧
    ((cw6.clearCmds).setCmd (str "cmd") res6).cmdParser = some res6 :=
  (claim6_subcommand 2 cw6 (str "cmd") [str "-x", str "pos"] 0 cmd6 (by decide) rfl rfl).1
    res6 [] rfl

/-- Claim C7: with the built-in help command enabled and the first token
the word help, which is not itself a registered sub-command alias: an
empty remainder fails with MissingHelpArg, and a next token that is not a
registered sub-command alias fails with the bad-name error naming it. -/
theorem claim7_help_errors (fuel : Nat) (p : ArgParser)
    (hch : p.cmdHelp = true)
    (hnone : mapGet p.commandMap (str "help") = none) :
    parseGo (fuel+1) p true [str "help"] = .err .MissingHelpArg p ∧
    (∀ name rest2, mapGet p.commandMap name = none →
      parseGo (fuel+1) p true (str "help" :: name :: rest2) =
        .err (.InvalidName (str "'" ++ name ++ str "' is not a recognised command name")) p) := by
  have e1 : ¬ (str "help" = str "--") := by decide
  have e2 : ¬ ((str "help").take 2 = str "--") := by decide
  have e3 : ¬ ((str "help").take 1 = str "-") := by decide
  constructor
  · simp [parseGo, hch, hnone, e1, e2, e3]
  · intro name rest2 hn
    simp [parseGo, hch, hnone, hn, e1, e2, e3]

def cw7 : ArgParser := ArgParser.new.command (str "cmd") (ArgParser.new.withHelptext (str "h"))

theorem claim7_witness :
    parseGo 1 cw7 true [str "help"] = .err .MissingHelpArg cw7 ∧
    parseGo 1 cw7 true (str "help" :: str "zzz" :: []) =
      .err (.InvalidName (str "'" ++ str "zzz" ++ str "' is not a recognised command name")) cw7 :=
  ⟨(claim7_help_errors 0 cw7 rfl rfl).1,
   (claim7_help_errors 0 cw7 rfl rfl).2 (str "zzz") [] rfl⟩

def cw8 : ArgParser := ArgParser.new.option (str "opt o") (str "d")

/-- Counterexample to claim C8 as stated: for the token dash-o-o the
cluster after the dash has length exactly 2, not exceeding 2, yet the
MissingValue detail string names both the character and the whole token;
the code tests the whole token's character count against 2, so the long
message appears already when the cluster has at least 2 characters. -/
theorem claim8_counterexample :
    parseVec cw8 [str "-oo"] =
      .err (.MissingValue (str "missing value for 'o' in -oo")) cw8 ∧
    ((str "-oo").drop 1).length = 2 := ⟨rfl, rfl⟩

/-- Claim C8 as amended: when a cluster character resolves to a
registered option alias and the stream has no next token, the
MissingValue detail string names both the character and the whole token
exactly when the whole token has more than 2 characters, that is when
the cluster after the dash has at least 2 characters; otherwise it names
only the token. -/
theorem claim8_missing_value_message (p : ArgParser) (arg : Tok) (c : Char) (ctl : List Char)
    (hf : mapGet p.flagMap [c] = none)
    (ho : mapGet p.optionMap [c] = some i) :
    handleShortOpt p arg (c :: ctl) [] =
      .err (.MissingValue (if 2 < arg.length then
        str "missing value for '" ++ [c] ++ str "' in " ++ arg
      else
        str "missing value for " ++ arg)) p := by
  simp [handleShortOpt, hf, ho]

theorem claim8_witness :
    handleShortOpt cw8 (str "-oo") ('o' :: ['o']) [] =
      .err (.MissingValue (if 2 < (str "-oo").length then
        str "missing value for '" ++ ['o'] ++ str "' in " ++ str "-oo"
      else
        str "missing value for " ++ str "-oo")) cw8 :=
  claim8_missing_value_message cw8 (str "-oo") 'o' ['o'] rfl rfl

/-- Claim C9: registering a sub-command whose parser has help text sets
the parent's help-command switch to true even if enable_help_command was
never called, and registering one without help text leaves the switch
unchanged. -/
theorem claim9_command_enables_help (p : ArgParser) (name : Tok) (cmdP : ArgParser) :
    (p.command name cmdP).cmdHelp = (if cmdP.helptext.isSome = true then true else p.cmdHelp) := by
  cases p
  rfl

/-- Claim C10: parsing never panics on token access: the panicked outcome
models exactly the two partial accesses of the source, reading the second
character of a dash-token other than the lone dash, and indexing the
second piece of the equals split, besides the unreachable fuel
exhaustion; parse_vec never produces it. -/
theorem claim10_no_panic (p : ArgParser) (ts : List Tok) : parseVec p ts ≠ .panicked :=
  (parseGo_spec ts.length p true ts).2.2 (Nat.le_refl _)

end Arguably
